import Mathlib

/-!
Verification of `collision.py` (pyweek34): a grid-based collision engine.

Numeric model: Python floats are embedded as exact rationals (`ℚ`).  At every
concrete input used below the Python float computations are exact (small
integers, halves, quarters), so the rational embedding agrees with the source.
`math.nextafter(x, ±inf)` is modelled as `x ± eps` for a fixed tiny positive
rational `eps`; the source only relies on the stepped value lying strictly
inside the adjacent cell, which holds for any `0 < eps < 1/4`.

Python `dict` keys are `vec2` values (pairs of floats); the grid is a
`defaultdict(tuple)`, so a plain read of a missing key inserts the empty
tuple.  We model the dictionary as an insertion-ordered association list and
the defaultdict read as `dd_get`, which returns the possibly-extended
dictionary together with the value found.
-/

namespace Collision

/-- 2D vector of exact rationals (model of `wasabigeom.vec2` over floats). -/
structure V2 where
  x : ℚ
  y : ℚ
deriving DecidableEq, Repr

instance : Add V2 := ⟨fun a b => ⟨a.x + b.x, a.y + b.y⟩⟩

/-- Scalar multiplication `delta * t` used for positions along a sweep. -/
def V2.smul (v : V2) (t : ℚ) : V2 := ⟨v.x * t, v.y * t⟩

@[simp] theorem V2.add_x (a b : V2) : (a + b).x = a.x + b.x := rfl
@[simp] theorem V2.add_y (a b : V2) : (a + b).y = a.y + b.y := rfl
@[simp] theorem V2.add_mk (a b c d : ℚ) : (⟨a, b⟩ + ⟨c, d⟩ : V2) = ⟨a + c, b + d⟩ := rfl
@[simp] theorem V2.smul_mk (a b t : ℚ) : V2.smul ⟨a, b⟩ t = ⟨a * t, b * t⟩ := rfl

/-- A tile: stable identity plus a position (model of the `AbstractTile`
protocol; identity is the `id` field, `pos` the coordinates). -/
structure Tile where
  id : ℕ
  pos : V2
deriving DecidableEq, Repr

/-- Truncation toward zero, the integer part returned by Python `math.modf`. -/
def truncQ (q : ℚ) : ℤ := if 0 ≤ q then ⌊q⌋ else ⌈q⌉

/-- Fractional part as returned by Python `math.modf` (same sign as `q`). -/
def fracPart (q : ℚ) : ℚ := q - truncQ q

/-- `fracPart q = 0` iff `q` is an integer: the source's "aligned" test. -/
theorem fracPart_eq_zero_iff (q : ℚ) : fracPart q = 0 ↔ (truncQ q : ℚ) = q := by
  unfold fracPart
  constructor
  · intro h; linarith [sub_eq_zero.mp h]
  · intro h; rw [h]; ring

/-- The grid dictionary: insertion-ordered association list from cell keys
(`vec2` of floats in the source, hence `V2` here) to tile tuples. -/
abbrev Dict := List (V2 × List Tile)

/-- Plain lookup (no defaultdict side effect): `g.get(k)`, the first entry
whose key equals `k`. -/
def assocFind : Dict → V2 → Option (List Tile)
  | [], _ => none
  | p :: g, k => if p.1 = k then some p.2 else assocFind g k

/-- Read of `defaultdict(tuple)`: `g[k]` inserts `()` when `k` is missing and
returns the stored value.  Returns the (possibly extended) dict and value. -/
def dd_get (g : Dict) (k : V2) : Dict × List Tile :=
  match assocFind g k with
  | some v => (g, v)
  | none => (g ++ [(k, [])], [])

/-- Write `g[k] = v`: update the entry in place if the key is present, else
append (Python dicts preserve insertion order). -/
def dd_set : Dict → V2 → List Tile → Dict
  | [], k, v => [(k, v)]
  | p :: g, k, v => if p.1 = k then (k, v) :: g else p :: dd_set g k v

/-- The value a cell holds, with the defaultdict's default: absent keys hold
the empty tuple.  This is the cell-coordinate-to-tuple mapping of the spec. -/
def lookupD (g : Dict) (k : V2) : List Tile := (assocFind g k).getD []

/-- State of a `GridCollider`: configured size, the cell dictionary, and the
`tiles_seen` membership set (modelled as a duplicate-free list). -/
structure GridState where
  size : V2
  grid : Dict
  tiles_seen : List Tile
deriving DecidableEq, Repr

/-- `GridCollider(size)`: empty grid. -/
def GridCollider.new (size : V2) : GridState := ⟨size, [], []⟩

/-- The three error conditions of the store (`ValueError` in the source) plus
a failed `assert`. -/
inductive GridError where
  | duplicateTile
  | outOfBounds
  | unknownTile
  | assertionFailed
deriving DecidableEq, Repr

/-- `GridCollider.add(tile)`.  Note the source order: the tile is added to
`tiles_seen` *before* the bounds check, so a rejected out-of-bounds tile
stays in the membership set. -/
def GridCollider.add (s : GridState) (tile : Tile) : GridState × Except GridError Unit :=
  if tile ∈ s.tiles_seen then (s, .error .duplicateTile)
  else
    let s1 : GridState := { s with tiles_seen := s.tiles_seen ++ [tile] }
    let pos := tile.pos
    if pos.x > s1.size.x ∨ pos.y > s1.size.y then (s1, .error .outOfBounds)
    else
      let gv := dd_get s1.grid pos
      ({ s1 with grid := dd_set gv.1 pos (gv.2 ++ [tile]) }, .ok ())

/-- `tuple.index(tile)`: index of the first occurrence, error if absent. -/
def tupleIndex : List Tile → Tile → Option ℕ
  | [], _ => none
  | a :: rest, t => if a = t then some 0 else (tupleIndex rest t).map (· + 1)

/-- `GridCollider.remove(tile)`.  The source rebuilds the cell's tuple as
`value[0:index] + value[index + 1:-1]` — the second slice stops one short of
the end (`dropLast` here) — and never removes the tile from `tiles_seen`. -/
def GridCollider.remove (s : GridState) (tile : Tile) : GridState × Except GridError Unit :=
  if tile ∈ s.tiles_seen then
    let pos := tile.pos
    let gv := dd_get s.grid pos
    match tupleIndex gv.2 tile with
    | none => ({ s with grid := gv.1 }, .error .unknownTile)
    | some index =>
      let new_value := gv.2.take index ++ (gv.2.drop (index + 1)).dropLast
      ({ s with grid := dd_set gv.1 pos new_value }, .ok ())
  else (s, .error .unknownTile)

/-- `tile in grid` (`__contains__`): membership-set check, cross-validated
by an `assert` against the tile's own cell tuple. -/
def GridCollider.contains (s : GridState) (tile : Tile) : GridState × Except GridError Bool :=
  let result : Bool := if tile ∈ s.tiles_seen then true else false
  let gv := dd_get s.grid tile.pos
  let result2 : Bool := if tile ∈ gv.2 then true else false
  ({ s with grid := gv.1 },
    if result = result2 then .ok result else .error .assertionFailed)

/-- `vec2(modf(pos.x)[1], modf(pos.y)[1])`: the cell key used by
`collide_point` and as `collide_moving_point`'s starting cell (integer parts
truncate toward zero, no negative correction). -/
def pointStartCell (pos : V2) : V2 := ⟨(truncQ pos.x : ℚ), (truncQ pos.y : ℚ)⟩

/-- `collide_point(pos)`: the tuple at `pointStartCell pos`. -/
def GridCollider.collide_point (s : GridState) (pos : V2) : GridState × List Tile :=
  let gv := dd_get s.grid (pointStartCell pos)
  ({ s with grid := gv.1 }, gv.2)

/-- The cell coordinate `collide_pawn` computes from a query position:
truncate toward zero, minus one on each negative axis (even when the axis
is exactly aligned, unlike a true floor). -/
def pawnCellCoord (pos : V2) : V2 :=
  ⟨((if pos.x < 0 then truncQ pos.x - 1 else truncQ pos.x : ℤ) : ℚ),
   ((if pos.y < 0 then truncQ pos.y - 1 else truncQ pos.y : ℤ) : ℚ)⟩

/-- Look up a list of cells in order, keeping the nonempty tuples
(the `(m x n)` loop of `collide_pawn`'s general path). -/
def gatherLoop (g : Dict) : List V2 → Dict × List (List Tile)
  | [] => (g, [])
  | c :: rest =>
    let gv := dd_get g c
    let r := gatherLoop gv.1 rest
    (r.1, (if gv.2 ≠ [] then [gv.2] else []) ++ r.2)

/-- Cells scanned by the general path: `pos_cell_coord + vec2(x, y)` for
`y in range(h)`, `x in range(w)`, in loop order. -/
def scanCells (base : V2) (w h : ℕ) : List V2 :=
  (List.range h).flatMap (fun y => (List.range w).map (fun x => base + ⟨(x : ℚ), (y : ℚ)⟩))

/-- `collide_pawn(pawn, pos)` with `size = pawn.size` (an explicit `pos`
argument; the source defaults it to `pawn.pos`).  Result `none` models the
source's `None`; `some v` models returning the collection `v` — note the
fast path returns the cell's stored tuple directly, which may be empty. -/
def GridCollider.collide_pawn (s : GridState) (size pos : V2) : GridState × Option (List Tile) :=
  let x_fraction := fracPart pos.x
  let y_fraction := fracPart pos.y
  let pos_cell_coord : V2 := pawnCellCoord pos
  if size.x ≤ 1 ∧ size.y ≤ 1 ∧ x_fraction = 0 ∧ y_fraction = 0 then
    -- super-optimized code path
    let gv := dd_get s.grid pos_cell_coord
    ({ s with grid := gv.1 }, some gv.2)
  else if size.x = 1 ∧ size.y = 1 then
    -- somewhat optimized code path
    let gv0 := dd_get s.grid pos_cell_coord
    let hits0 : List (List Tile) := if gv0.2 ≠ [] then [gv0.2] else []
    let r1 : Dict × List (List Tile) :=
      if x_fraction ≠ 0 then
        let gv := dd_get gv0.1 (pos_cell_coord + ⟨1, 0⟩)
        (gv.1, hits0 ++ if gv.2 ≠ [] then [gv.2] else [])
      else (gv0.1, hits0)
    let r2 : Dict × List (List Tile) :=
      if y_fraction ≠ 0 then
        let gv := dd_get r1.1 (pos_cell_coord + ⟨0, 1⟩)
        let hits1 := r1.2 ++ if gv.2 ≠ [] then [gv.2] else []
        if x_fraction ≠ 0 then
          let gv' := dd_get gv.1 (pos_cell_coord + ⟨1, 1⟩)
          (gv'.1, hits1 ++ if gv'.2 ≠ [] then [gv'.2] else [])
        else (gv.1, hits1)
      else r1
    ({ s with grid := r2.1 },
      if r2.2 = [] then none else some r2.2.flatten)
  else
    -- non-optimized code path: an (m x n) block of cells
    let h : ℕ := (⌈size.y⌉ + (if y_fraction = 0 then 0 else 1)).toNat
    let w : ℕ := (⌈size.x⌉ + (if x_fraction = 0 then 0 else 1)).toNat
    let r := gatherLoop s.grid (scanCells pos_cell_coord w h)
    ({ s with grid := r.1 },
      if r.2 = [] then none else some r.2.flatten)

/-- A collision event `(t, position_at_t, hits)`. -/
abbrev Event := ℚ × V2 × List Tile

/-- Crossing loop of `t_and_aligned_coord_tuples`: starting from the integer
part of `start`, step `coord` by `sign` and yield `t = (coord - start)/delta`
until `t > 1`.  `fuel` bounds the iteration count; `pointFuel` below always
suffices for the loop to exit through the `t > 1` break. -/
def pointAxisLoop (start delta : ℚ) (sign : ℤ) (yield_value : V2) (coord : ℤ) :
    ℕ → List (ℚ × V2)
  | 0 => []
  | fuel + 1 =>
    let coord' := coord + sign
    let t := ((coord' : ℚ) - start) / delta
    if t > 1 then []
    else (t, yield_value) :: pointAxisLoop start delta sign yield_value coord' fuel

/-- Enough fuel for `pointAxisLoop`: the loop crosses at most `⌈|delta|⌉ + 2`
cell boundaries before `t` exceeds 1. -/
def pointFuel (delta : ℚ) : ℕ := (⌈|delta|⌉).toNat + 2

/-- `t_and_aligned_coord_tuples(start, delta, yield_value)`: always yields
`(0, vec2(0, 0))` first; then, when `delta` is nonzero, the cell-boundary
crossings.  Note `yield_value` is the fixed positive unit step for the axis,
regardless of the sign of `delta` (as in the source). -/
def t_and_aligned_coord_tuples (start delta : ℚ) (yield_value : V2) : List (ℚ × V2) :=
  (0, (⟨0, 0⟩ : V2)) ::
    (if delta = 0 then []
     else
       let sign : ℤ := if delta > 0 then 1 else -1
       pointAxisLoop start delta sign yield_value (truncQ start) (pointFuel delta))

/-- The interleaving loop shared by both sweep queries: merge two streams by
increasing `t`, combining simultaneous entries with `comb`. -/
def mergeBy {α : Type} (comb : α → α → α) :
    List (ℚ × α) → List (ℚ × α) → List (ℚ × α)
  | [], ys => ys
  | x :: xs, [] => x :: xs
  | x :: xs, y :: ys =>
    if x.1 = y.1 then (x.1, comb x.2 y.2) :: mergeBy comb xs ys
    else if x.1 < y.1 then x :: mergeBy comb xs (y :: ys)
    else y :: mergeBy comb (x :: xs) ys
termination_by xs ys => xs.length + ys.length

/-- Consumption loop of `collide_moving_point`: accumulate the cell
coordinate by the merged steps, look each cell up, and yield an event when
the cell is nonempty. -/
def pointEmit (pos delta : V2) (s : GridState) (cell : V2) :
    List (ℚ × V2) → GridState × List Event
  | [] => (s, [])
  | (t, cell_pos_delta) :: rest =>
    let cell' := cell + cell_pos_delta
    let gv := dd_get s.grid cell'
    let s' := { s with grid := gv.1 }
    let r := pointEmit pos delta s' cell' rest
    (r.1, (if gv.2 ≠ [] then [(t, pos + delta.smul t, gv.2)] else []) ++ r.2)

/-- `collide_moving_point(pos, delta)`: merge the per-axis crossing streams
(simultaneous crossings combine into one diagonal step) and yield the
occupants of each newly entered cell.  The lazy generator is modelled by the
full list of events it can yield. -/
def GridCollider.collide_moving_point (s : GridState) (pos delta : V2) :
    GridState × List Event :=
  let x_list := t_and_aligned_coord_tuples pos.x delta.x ⟨1, 0⟩
  let y_list := t_and_aligned_coord_tuples pos.y delta.y ⟨0, 1⟩
  let cell_pos : V2 := pointStartCell pos
  pointEmit pos delta s cell_pos (mergeBy (· + ·) x_list y_list)

/-- `math.nextafter(x, ±inf)` modelled as a fixed tiny rational step
(`2⁻⁵²`); the source only needs the stepped value to lie strictly inside
the adjacent cell. -/
def eps : ℚ := 1 / 4503599627370496

/-- `coord_to_cell` for positive travel (right/down): a coordinate exactly
on a boundary belongs to the cell before it. -/
def coordToCellPos (coord : ℚ) : ℤ :=
  if fracPart coord ≠ 0 then truncQ coord else truncQ coord - 1

/-- `first_value_in_next_cell` for positive travel:
`nextafter(ceil-like integer, inf)`. -/
def firstValueInNextCellPos (coord : ℚ) : ℚ :=
  ((if fracPart coord ≠ 0 then truncQ coord + 1 else truncQ coord : ℤ) : ℚ) + eps

/-- `coord_to_cell` for negative travel (left/up): floor, with the explicit
negative correction. -/
def coordToCellNeg (coord : ℚ) : ℤ :=
  if coord < 0 ∧ fracPart coord ≠ 0 then truncQ coord - 1 else truncQ coord

/-- `first_value_in_next_cell` for negative travel:
`nextafter(floor, -inf)`. -/
def firstValueInNextCellNeg (coord : ℚ) : ℚ :=
  ((if coord < 0 ∧ fracPart coord ≠ 0 then truncQ coord - 1 else truncQ coord : ℤ) : ℚ) - eps

/-- Direction-dependent `coord_to_cell` selected by `posdir`. -/
def coordToCell (posdir : Bool) (coord : ℚ) : ℤ :=
  if posdir then coordToCellPos coord else coordToCellNeg coord

/-- Direction-dependent `first_value_in_next_cell`. -/
def firstValueInNextCell (posdir : Bool) (coord : ℚ) : ℚ :=
  if posdir then firstValueInNextCellPos coord else firstValueInNextCellNeg coord

/-- Loop body of `check_moving_pawn_along_one_coordinate`: step the leading
edge to the first value inside the next cell, stop once `t > 1`, otherwise
run the static query at the full position and yield on a nonempty result.
(The source's inner `tries_remaining` loop always breaks after its first
iteration, so it is modelled as straight-line code; its `assert`s hold in
exact arithmetic.) -/
def pawnStepPos (pos delta : V2) (t : ℚ) (isX posdir : Bool) (next_pos_cell : ℤ) : V2 :=
  let new_pos := pos + delta.smul t
  let coordv := if isX then new_pos.x else new_pos.y
  -- "slight hack": force the moved coordinate into the expected cell
  if coordToCell posdir coordv ≠ next_pos_cell then
    let desired := firstValueInNextCell posdir coordv
    if isX then (⟨desired, new_pos.y⟩ : V2) else (⟨new_pos.x, desired⟩ : V2)
  else new_pos

def pawnAxisLoop (size pos delta : V2) (start scalar_delta : ℚ) (isX posdir : Bool) :
    GridState → ℚ → ℤ → ℕ → GridState × List Event
  | s, _, _, 0 => (s, [])
  | s, axis_pos, next_pos_cell, fuel + 1 =>
    let next_axis_pos := firstValueInNextCell posdir axis_pos
    let t := (next_axis_pos - start) / scalar_delta
    if t > 1 then (s, [])
    else
      let new_pos := pawnStepPos pos delta t isX posdir next_pos_cell
      let r := GridCollider.collide_pawn s size new_pos
      let evs : List Event :=
        match r.2 with
        | some (h :: hs) => [(t, new_pos, h :: hs)]
        | _ => []
      let step : ℚ := if posdir then 1 else -1
      let rest := pawnAxisLoop size pos delta start scalar_delta isX posdir r.1
        (axis_pos + step) (next_pos_cell + (if posdir then 1 else -1)) fuel
      (rest.1, evs ++ rest.2)

/-- Enough fuel for `pawnAxisLoop` to exit through its `t > 1` break. -/
def pawnFuel (scalar_delta : ℚ) : ℕ := (⌈|scalar_delta|⌉).toNat + 3

/-- `check_moving_pawn_along_one_coordinate(start, scalar_delta, attr)`:
nothing to do on a zero delta; otherwise iterate the crossing loop from the
leading-edge coordinate.  (`next_cell` of the source only feeds an `assert`
and is omitted.) -/
def check_moving_pawn_along_one_coordinate (s : GridState) (size pos delta : V2)
    (start scalar_delta : ℚ) (isX : Bool) : GridState × List Event :=
  if scalar_delta = 0 then (s, [])
  else
    let posdir : Bool := if scalar_delta > 0 then true else false
    let pos_attr := if isX then pos.x else pos.y
    let pos_cell := coordToCell posdir pos_attr
    let next_pos_cell := pos_cell + (if posdir then 1 else -1)
    pawnAxisLoop size pos delta start scalar_delta isX posdir s start next_pos_cell
      (pawnFuel scalar_delta)

/-- Union of two hit tuples, as built by `tuple(set(x[2]) | set(y[2]))`.
Python's `set` iteration order is unspecified; the claims only compare hit
sets, so the union is modelled as ordered dedup-append. -/
def hitUnion (a b : List Tile) : List Tile := a ++ b.filter (fun t => ¬ t ∈ a)

/-- Is `t` an element of `l` (Python `in`), as a `Bool`. -/
def memB (t : Tile) (l : List Tile) : Bool := if t ∈ l then true else false

/-- `set(a) == set(b)`: the two tuples hold the same set of tiles. -/
def sameHitSet (a b : List Tile) : Bool := a.all (memB · b) && b.all (memB · a)

/-- The "cull redundant results" filter of `collide_moving_pawn`: suppress
an event whose hit set equals the previous yielded event's hit set.
`previous` starts as `None` (set after the `t=0` yield, which therefore
does not participate in the deduplication). -/
def cullRedundant (previous : Option (List Tile)) : List Event → List Event
  | [] => []
  | e :: rest =>
    match previous with
    | none => e :: cullRedundant (some e.2.2) rest
    | some prev =>
      if sameHitSet prev e.2.2 then cullRedundant (some prev) rest
      else e :: cullRedundant (some e.2.2) rest

/-- The merged, culled post-`t=0` event stream of `collide_moving_pawn`.
The source consumes the two generators interleaved; generator steps touch
the dictionary only through defaultdict reads, which never change any
cell's value, so running the x generator to exhaustion first produces the
same events (see the preservation lemmas below). -/
def movingPawnMerged (s : GridState) (size delta pos : V2) : GridState × List Event :=
  let top_right := pos + size
  let rx :=
    if delta.x ≥ 0 then
      check_moving_pawn_along_one_coordinate s size pos delta top_right.x delta.x true
    else
      check_moving_pawn_along_one_coordinate s size pos delta pos.x delta.x true
  let ry :=
    if delta.y ≥ 0 then
      check_moving_pawn_along_one_coordinate rx.1 size pos delta top_right.y delta.y false
    else
      check_moving_pawn_along_one_coordinate rx.1 size pos delta pos.y delta.y false
  (ry.1, cullRedundant none (mergeBy (fun a b => (a.1, hitUnion a.2 b.2)) rx.2 ry.2))

/-- `collide_moving_pawn(pawn, delta, pos)`: the `t=0` static check followed
by the merged and culled leading-edge crossing events. -/
def GridCollider.collide_moving_pawn (s : GridState) (size delta pos : V2) :
    GridState × List Event :=
  let r0 := GridCollider.collide_pawn s size pos
  let t0_events : List Event :=
    match r0.2 with
    | some (h :: hs) => [(0, pos, h :: hs)]
    | _ => []
  let r := movingPawnMerged r0.1 size delta pos
  (r.1, t0_events ++ r.2)

/-! ### Proof layer: dictionary lemmas

A defaultdict read never changes the value any key maps to; these lemmas let
us reason about query results through `lookupD` alone. -/

theorem assocFind_append (g₁ g₂ : Dict) (k : V2) :
    assocFind (g₁ ++ g₂) k =
      match assocFind g₁ k with
      | some v => some v
      | none => assocFind g₂ k := by
  induction g₁ with
  | nil => simp [assocFind]
  | cons p g ih =>
    by_cases h : p.1 = k <;> simp [assocFind, h, ih]

theorem dd_get_snd (g : Dict) (k : V2) : (dd_get g k).2 = lookupD g k := by
  unfold dd_get lookupD
  cases h : assocFind g k <;> simp [h]

theorem lookupD_dd_get (g : Dict) (k : V2) : lookupD (dd_get g k).1 = lookupD g := by
  funext k'
  unfold dd_get
  cases h : assocFind g k with
  | some v => rfl
  | none =>
    simp only [lookupD, assocFind_append]
    cases h' : assocFind g k' with
    | some v => simp
    | none =>
      by_cases hk : k = k'
      · subst hk; simp [assocFind, h'.symm.trans h]
      · simp [assocFind, hk]

theorem lookupD_dd_set (g : Dict) (k : V2) (v : List Tile) (k' : V2) :
    lookupD (dd_set g k v) k' = if k' = k then v else lookupD g k' := by
  induction g with
  | nil =>
    by_cases hk : k = k' <;> simp [dd_set, lookupD, assocFind, hk, eq_comm]
  | cons p g ih =>
    by_cases hp : p.1 = k
    · by_cases hk : k = k'
      · subst hk; simp [dd_set, lookupD, assocFind, hp, eq_comm]
      · have hp' : ¬ p.1 = k' := fun hh => hk (hp.symm.trans hh)
        have hk' : ¬ k' = k := fun hh => hk hh.symm
        simp [dd_set, lookupD, assocFind, hp, hp', hk, hk']
    · by_cases hpk : p.1 = k'
      · have hk : ¬ k' = k := fun hh => hp (hpk.trans hh)
        simp [dd_set, lookupD, assocFind, hp, hpk, hk]
      · simp only [dd_set, if_neg hp]
        simp only [lookupD, assocFind, if_neg hpk]
        exact ih

/-! ### Proof layer: pure mirrors

Each query below is mirrored by a pure function over the lookup map
`lookupD s.grid`; the agreement lemmas prove the stateful code computes the
mirror's result and leaves every cell's value (and `tiles_seen`) unchanged. -/

/-- Pure mirror of `gatherLoop`. -/
def gatherP (look : V2 → List Tile) : List V2 → List (List Tile)
  | [] => []
  | c :: rest => (if look c ≠ [] then [look c] else []) ++ gatherP look rest

/-- The guard of `collide_pawn`'s super-optimized code path. -/
def fastPath (size pos : V2) : Prop :=
  size.x ≤ 1 ∧ size.y ≤ 1 ∧ fracPart pos.x = 0 ∧ fracPart pos.y = 0

instance (size pos : V2) : Decidable (fastPath size pos) := by
  unfold fastPath; infer_instance

/-- Pure mirror of `collide_pawn`. -/
def collidePawnP (look : V2 → List Tile) (size pos : V2) : Option (List Tile) :=
  let x_fraction := fracPart pos.x
  let y_fraction := fracPart pos.y
  let pcc := pawnCellCoord pos
  if size.x ≤ 1 ∧ size.y ≤ 1 ∧ x_fraction = 0 ∧ y_fraction = 0 then
    some (look pcc)
  else if size.x = 1 ∧ size.y = 1 then
    let hits0 : List (List Tile) := if look pcc ≠ [] then [look pcc] else []
    let hits1 := hits0 ++
      (if x_fraction ≠ 0 then
        (if look (pcc + ⟨1, 0⟩) ≠ [] then [look (pcc + ⟨1, 0⟩)] else []) else [])
    let hits2 := hits1 ++
      (if y_fraction ≠ 0 then
        ((if look (pcc + ⟨0, 1⟩) ≠ [] then [look (pcc + ⟨0, 1⟩)] else []) ++
         (if x_fraction ≠ 0 then
           (if look (pcc + ⟨1, 1⟩) ≠ [] then [look (pcc + ⟨1, 1⟩)] else []) else []))
       else [])
    if hits2 = [] then none else some hits2.flatten
  else
    let h : ℕ := (⌈size.y⌉ + (if y_fraction = 0 then 0 else 1)).toNat
    let w : ℕ := (⌈size.x⌉ + (if x_fraction = 0 then 0 else 1)).toNat
    let hits := gatherP look (scanCells pcc w h)
    if hits = [] then none else some hits.flatten

theorem gather_agree (cs : List V2) (g : Dict) :
    (gatherLoop g cs).2 = gatherP (lookupD g) cs ∧
      lookupD (gatherLoop g cs).1 = lookupD g := by
  induction cs generalizing g with
  | nil => exact ⟨rfl, rfl⟩
  | cons c rest ih =>
    have h2 := dd_get_snd g c
    have h1 := lookupD_dd_get g c
    have ihr := ih (dd_get g c).1
    refine ⟨?_, ihr.2.trans h1⟩
    simp only [gatherLoop, gatherP, ihr.1, h1, h2]

theorem collide_pawn_agree (s : GridState) (size pos : V2) :
    (GridCollider.collide_pawn s size pos).2 = collidePawnP (lookupD s.grid) size pos ∧
      lookupD (GridCollider.collide_pawn s size pos).1.grid = lookupD s.grid ∧
      (GridCollider.collide_pawn s size pos).1.tiles_seen = s.tiles_seen := by
  unfold GridCollider.collide_pawn collidePawnP
  by_cases h1 : size.x ≤ 1 ∧ size.y ≤ 1 ∧ fracPart pos.x = 0 ∧ fracPart pos.y = 0
  · rw [if_pos h1, if_pos h1]
    exact ⟨by simp [dd_get_snd], by simp [lookupD_dd_get], rfl⟩
  · rw [if_neg h1, if_neg h1]
    by_cases h2 : size.x = 1 ∧ size.y = 1
    · rw [if_pos h2, if_pos h2]
      by_cases hx : fracPart pos.x ≠ 0 <;> by_cases hy : fracPart pos.y ≠ 0 <;>
        refine ⟨?_, ?_, rfl⟩ <;>
        simp [hx, hy, dd_get_snd, lookupD_dd_get, List.append_assoc]
    · rw [if_neg h2, if_neg h2]
      have hg := gather_agree
        (scanCells (pawnCellCoord pos)
          ((⌈size.x⌉ + (if fracPart pos.x = 0 then 0 else 1)).toNat)
          ((⌈size.y⌉ + (if fracPart pos.y = 0 then 0 else 1)).toNat)) s.grid
      exact ⟨by simp [hg.1], by simp [hg.2], rfl⟩

theorem collide_point_agree (s : GridState) (pos : V2) :
    (GridCollider.collide_point s pos).2 = lookupD s.grid (pointStartCell pos) ∧
      lookupD (GridCollider.collide_point s pos).1.grid = lookupD s.grid ∧
      (GridCollider.collide_point s pos).1.tiles_seen = s.tiles_seen :=
  ⟨dd_get_snd s.grid (pointStartCell pos), lookupD_dd_get s.grid (pointStartCell pos), rfl⟩

/-- Pure mirror of `pointEmit`. -/
def pointEmitP (look : V2 → List Tile) (pos delta : V2) (cell : V2) :
    List (ℚ × V2) → List Event
  | [] => []
  | (t, cell_pos_delta) :: rest =>
    let cell' := cell + cell_pos_delta
    (if look cell' ≠ [] then [(t, pos + delta.smul t, look cell')] else []) ++
      pointEmitP look pos delta cell' rest

theorem pointEmit_agree (pos delta : V2) :
    ∀ (cs : List (ℚ × V2)) (s : GridState) (cell : V2),
      (pointEmit pos delta s cell cs).2 = pointEmitP (lookupD s.grid) pos delta cell cs ∧
        lookupD (pointEmit pos delta s cell cs).1.grid = lookupD s.grid ∧
        (pointEmit pos delta s cell cs).1.tiles_seen = s.tiles_seen := by
  intro cs
  induction cs with
  | nil => exact fun s cell => ⟨rfl, rfl, rfl⟩
  | cons e rest ih =>
    intro s cell
    obtain ⟨t, cd⟩ := e
    have h2 := dd_get_snd s.grid (cell + cd)
    have h1 := lookupD_dd_get s.grid (cell + cd)
    have ihr := ih { s with grid := (dd_get s.grid (cell + cd)).1 } (cell + cd)
    refine ⟨?_, ihr.2.1.trans h1, ihr.2.2⟩
    simp only [pointEmit, pointEmitP, ihr.1, h1, h2]

/-- Pure mirror of `collide_moving_point`. -/
def movingPointP (look : V2 → List Tile) (pos delta : V2) : List Event :=
  pointEmitP look pos delta (pointStartCell pos)
    (mergeBy (· + ·) (t_and_aligned_coord_tuples pos.x delta.x ⟨1, 0⟩)
      (t_and_aligned_coord_tuples pos.y delta.y ⟨0, 1⟩))

theorem collide_moving_point_agree (s : GridState) (pos delta : V2) :
    (GridCollider.collide_moving_point s pos delta).2 = movingPointP (lookupD s.grid) pos delta ∧
      lookupD (GridCollider.collide_moving_point s pos delta).1.grid = lookupD s.grid ∧
      (GridCollider.collide_moving_point s pos delta).1.tiles_seen = s.tiles_seen :=
  pointEmit_agree pos delta _ s (pointStartCell pos)

/-- Pure mirror of `pawnAxisLoop`. -/
def pawnAxisP (look : V2 → List Tile) (size pos delta : V2) (start scalar_delta : ℚ)
    (isX posdir : Bool) : ℚ → ℤ → ℕ → List Event
  | _, _, 0 => []
  | axis_pos, next_pos_cell, fuel + 1 =>
    let next_axis_pos := firstValueInNextCell posdir axis_pos
    let t := (next_axis_pos - start) / scalar_delta
    if t > 1 then []
    else
      let new_pos := pawnStepPos pos delta t isX posdir next_pos_cell
      let evs : List Event :=
        match collidePawnP look size new_pos with
        | some (h :: hs) => [(t, new_pos, h :: hs)]
        | _ => []
      let step : ℚ := if posdir then 1 else -1
      evs ++ pawnAxisP look size pos delta start scalar_delta isX posdir
        (axis_pos + step) (next_pos_cell + (if posdir then 1 else -1)) fuel

theorem pawnAxis_agree (size pos delta : V2) (start scalar_delta : ℚ) (isX posdir : Bool) :
    ∀ (fuel : ℕ) (s : GridState) (axis_pos : ℚ) (next_pos_cell : ℤ),
      (pawnAxisLoop size pos delta start scalar_delta isX posdir s axis_pos next_pos_cell fuel).2 =
        pawnAxisP (lookupD s.grid) size pos delta start scalar_delta isX posdir
          axis_pos next_pos_cell fuel ∧
      lookupD (pawnAxisLoop size pos delta start scalar_delta isX posdir s
        axis_pos next_pos_cell fuel).1.grid = lookupD s.grid ∧
      (pawnAxisLoop size pos delta start scalar_delta isX posdir s
        axis_pos next_pos_cell fuel).1.tiles_seen = s.tiles_seen := by
  intro fuel
  induction fuel with
  | zero => exact fun s _ _ => ⟨rfl, rfl, rfl⟩
  | succ n ih =>
    intro s axis_pos next_pos_cell
    rw [pawnAxisLoop, pawnAxisP]
    by_cases ht : (firstValueInNextCell posdir axis_pos - start) / scalar_delta > 1
    · rw [if_pos ht, if_pos ht]; exact ⟨rfl, rfl, rfl⟩
    · rw [if_neg ht, if_neg ht]
      have hcp := collide_pawn_agree s size
        (pawnStepPos pos delta ((firstValueInNextCell posdir axis_pos - start) / scalar_delta)
          isX posdir next_pos_cell)
      have ihr := ih (GridCollider.collide_pawn s size
        (pawnStepPos pos delta ((firstValueInNextCell posdir axis_pos - start) / scalar_delta)
          isX posdir next_pos_cell)).1
        (axis_pos + (if posdir then 1 else -1))
        (next_pos_cell + (if posdir then 1 else -1))
      refine ⟨?_, ihr.2.1.trans hcp.2.1, ihr.2.2.trans hcp.2.2⟩
      simp only [ihr.1, hcp.1, hcp.2.1]

/-- Pure mirror of `check_moving_pawn_along_one_coordinate`. -/
def checkP (look : V2 → List Tile) (size pos delta : V2) (start scalar_delta : ℚ)
    (isX : Bool) : List Event :=
  if scalar_delta = 0 then []
  else
    let posdir : Bool := if scalar_delta > 0 then true else false
    let pos_attr := if isX then pos.x else pos.y
    let pos_cell := coordToCell posdir pos_attr
    let next_pos_cell := pos_cell + (if posdir then 1 else -1)
    pawnAxisP look size pos delta start scalar_delta isX posdir start next_pos_cell
      (pawnFuel scalar_delta)

theorem check_agree (s : GridState) (size pos delta : V2) (start scalar_delta : ℚ)
    (isX : Bool) :
    (check_moving_pawn_along_one_coordinate s size pos delta start scalar_delta isX).2 =
      checkP (lookupD s.grid) size pos delta start scalar_delta isX ∧
      lookupD (check_moving_pawn_along_one_coordinate s size pos delta
        start scalar_delta isX).1.grid = lookupD s.grid ∧
      (check_moving_pawn_along_one_coordinate s size pos delta
        start scalar_delta isX).1.tiles_seen = s.tiles_seen := by
  unfold check_moving_pawn_along_one_coordinate checkP
  by_cases h : scalar_delta = 0
  · rw [if_pos h, if_pos h]; exact ⟨rfl, rfl, rfl⟩
  · rw [if_neg h, if_neg h]
    exact pawnAxis_agree size pos delta start scalar_delta isX _ _ s start _

/-- Pure mirror of `movingPawnMerged`. -/
def mergedP (look : V2 → List Tile) (size delta pos : V2) : List Event :=
  let top_right := pos + size
  let xev :=
    if delta.x ≥ 0 then checkP look size pos delta top_right.x delta.x true
    else checkP look size pos delta pos.x delta.x true
  let yev :=
    if delta.y ≥ 0 then checkP look size pos delta top_right.y delta.y false
    else checkP look size pos delta pos.y delta.y false
  cullRedundant none (mergeBy (fun a b => (a.1, hitUnion a.2 b.2)) xev yev)

theorem movingPawnMerged_agree (s : GridState) (size delta pos : V2) :
    (movingPawnMerged s size delta pos).2 = mergedP (lookupD s.grid) size delta pos ∧
      lookupD (movingPawnMerged s size delta pos).1.grid = lookupD s.grid ∧
      (movingPawnMerged s size delta pos).1.tiles_seen = s.tiles_seen := by
  unfold movingPawnMerged mergedP
  dsimp only
  by_cases hx : delta.x ≥ 0
  · by_cases hy : delta.y ≥ 0
    · simp only [if_pos hx, if_pos hy]
      have h1 := check_agree s size pos delta (pos + size).x delta.x true
      have h2 := check_agree (check_moving_pawn_along_one_coordinate s size pos delta
        (pos + size).x delta.x true).1 size pos delta (pos + size).y delta.y false
      refine ⟨?_, h2.2.1.trans h1.2.1, h2.2.2.trans h1.2.2⟩
      rw [h1.1, h2.1, h1.2.1]
    · simp only [if_pos hx, if_neg hy]
      have h1 := check_agree s size pos delta (pos + size).x delta.x true
      have h2 := check_agree (check_moving_pawn_along_one_coordinate s size pos delta
        (pos + size).x delta.x true).1 size pos delta pos.y delta.y false
      refine ⟨?_, h2.2.1.trans h1.2.1, h2.2.2.trans h1.2.2⟩
      rw [h1.1, h2.1, h1.2.1]
  · by_cases hy : delta.y ≥ 0
    · simp only [if_neg hx, if_pos hy]
      have h1 := check_agree s size pos delta pos.x delta.x true
      have h2 := check_agree (check_moving_pawn_along_one_coordinate s size pos delta
        pos.x delta.x true).1 size pos delta (pos + size).y delta.y false
      refine ⟨?_, h2.2.1.trans h1.2.1, h2.2.2.trans h1.2.2⟩
      rw [h1.1, h2.1, h1.2.1]
    · simp only [if_neg hx, if_neg hy]
      have h1 := check_agree s size pos delta pos.x delta.x true
      have h2 := check_agree (check_moving_pawn_along_one_coordinate s size pos delta
        pos.x delta.x true).1 size pos delta pos.y delta.y false
      refine ⟨?_, h2.2.1.trans h1.2.1, h2.2.2.trans h1.2.2⟩
      rw [h1.1, h2.1, h1.2.1]

/-- Pure mirror of `collide_moving_pawn`. -/
def movingPawnP (look : V2 → List Tile) (size delta pos : V2) : List Event :=
  let t0_events : List Event :=
    match collidePawnP look size pos with
    | some (h :: hs) => [(0, pos, h :: hs)]
    | _ => []
  t0_events ++ mergedP look size delta pos

theorem collide_moving_pawn_agree (s : GridState) (size delta pos : V2) :
    (GridCollider.collide_moving_pawn s size delta pos).2 =
      movingPawnP (lookupD s.grid) size delta pos ∧
      lookupD (GridCollider.collide_moving_pawn s size delta pos).1.grid = lookupD s.grid ∧
      (GridCollider.collide_moving_pawn s size delta pos).1.tiles_seen = s.tiles_seen := by
  unfold GridCollider.collide_moving_pawn movingPawnP
  dsimp only
  have h0 := collide_pawn_agree s size pos
  have hm := movingPawnMerged_agree (GridCollider.collide_pawn s size pos).1 size delta pos
  refine ⟨?_, hm.2.1.trans h0.2.1, hm.2.2.trans h0.2.2⟩
  rw [hm.1, h0.1, h0.2.1]

/-! ### Proof layer: arithmetic facts about truncation and the cell-step
functions -/

theorem truncQ_intCast (n : ℤ) : truncQ (n : ℚ) = n := by
  unfold truncQ; split <;> simp

theorem truncQ_bounds (q : ℚ) : q - 1 < (truncQ q : ℚ) ∧ (truncQ q : ℚ) < q + 1 := by
  unfold truncQ
  by_cases h : 0 ≤ q
  · rw [if_pos h]
    exact ⟨Int.sub_one_lt_floor q, lt_of_le_of_lt (Int.floor_le q) (lt_add_one q)⟩
  · rw [if_neg h]
    exact ⟨lt_of_lt_of_le (by linarith) (Int.le_ceil q), Int.ceil_lt_add_one q⟩

theorem truncQ_mono {a b : ℚ} (h : a ≤ b) : truncQ a ≤ truncQ b := by
  unfold truncQ
  by_cases ha : 0 ≤ a
  · rw [if_pos ha, if_pos (ha.trans h)]
    exact Int.floor_le_floor h
  · rw [if_neg ha]
    by_cases hb : 0 ≤ b
    · rw [if_pos hb]
      calc ⌈a⌉ ≤ ⌈(0 : ℚ)⌉ := Int.ceil_le_ceil (le_of_not_le ha)
        _ = ⌊(0 : ℚ)⌋ := by simp
        _ ≤ ⌊b⌋ := Int.floor_le_floor hb
    · rw [if_neg hb]
      exact Int.ceil_le_ceil h

theorem fracPart_eq_zero_exists (q : ℚ) : fracPart q = 0 ↔ ∃ n : ℤ, (n : ℚ) = q := by
  rw [fracPart_eq_zero_iff]
  constructor
  · exact fun h => ⟨truncQ q, h⟩
  · rintro ⟨n, rfl⟩
    rw [truncQ_intCast]

theorem fracPart_add_one (q : ℚ) : fracPart (q + 1) = 0 ↔ fracPart q = 0 := by
  rw [fracPart_eq_zero_exists, fracPart_eq_zero_exists]
  constructor
  · rintro ⟨n, hn⟩
    exact ⟨n - 1, by push_cast; linarith⟩
  · rintro ⟨n, rfl⟩
    exact ⟨n + 1, by push_cast; ring⟩

theorem ceil_of_fracPart_ne (q : ℚ) (h : fracPart q ≠ 0) : ⌈q⌉ = ⌊q⌋ + 1 := by
  have hne : (⌊q⌋ : ℚ) ≠ q := by
    intro hq
    exact h ((fracPart_eq_zero_exists q).2 ⟨⌊q⌋, hq⟩)
  have hlt : (⌊q⌋ : ℚ) < q := lt_of_le_of_ne (Int.floor_le q) hne
  rw [Int.ceil_eq_iff]
  constructor
  · push_cast; linarith
  · push_cast; linarith [Int.lt_floor_add_one q]

theorem eps_pos : 0 < eps := by norm_num [eps]

theorem eps_lt : eps < 1 / 4 := by norm_num [eps]

/-- Moving right/down, the stepped-to value lies strictly beyond the current
coordinate. -/
theorem fvpos_gt (c : ℚ) : c < firstValueInNextCellPos c := by
  unfold firstValueInNextCellPos
  by_cases h : fracPart c ≠ 0
  · rw [if_pos h]
    have := (truncQ_bounds c).1
    push_cast
    linarith [eps_pos]
  · rw [if_neg h]
    have hc : (truncQ c : ℚ) = c := (fracPart_eq_zero_iff c).1 (not_not.1 h)
    rw [hc]
    linarith [eps_pos]

/-- Moving right/down, stepping the coordinate one whole cell forward never
decreases the stepped-to value. -/
theorem fvpos_step (c : ℚ) : firstValueInNextCellPos c ≤ firstValueInNextCellPos (c + 1) := by
  unfold firstValueInNextCellPos
  have hmono : truncQ c ≤ truncQ (c + 1) := truncQ_mono (by linarith)
  by_cases h : fracPart c = 0
  · have h1 : fracPart (c + 1) = 0 := (fracPart_add_one c).2 h
    rw [if_neg (not_not.2 h), if_neg (not_not.2 h1)]
    have hc : (truncQ c : ℚ) = c := (fracPart_eq_zero_iff c).1 h
    have hc1 : (truncQ (c + 1) : ℚ) = c + 1 := (fracPart_eq_zero_iff (c + 1)).1 h1
    rw [hc, hc1]
    linarith
  · have h1 : fracPart (c + 1) ≠ 0 := fun hh => h ((fracPart_add_one c).1 hh)
    rw [if_pos (by exact h), if_pos (by exact h1)]
    push_cast
    have : (truncQ c : ℚ) ≤ (truncQ (c + 1) : ℚ) := by exact_mod_cast hmono
    linarith

/-- Moving left/up, the step function is exactly `⌊c⌋ - eps`. -/
theorem fvneg_eq (c : ℚ) : firstValueInNextCellNeg c = (⌊c⌋ : ℚ) - eps := by
  unfold firstValueInNextCellNeg
  by_cases h : c < 0 ∧ fracPart c ≠ 0
  · rw [if_pos h]
    have hq : ¬ 0 ≤ c := not_le.2 h.1
    have : truncQ c = ⌈c⌉ := by unfold truncQ; rw [if_neg hq]
    rw [this, ceil_of_fracPart_ne c h.2]
    push_cast
    ring
  · rw [if_neg h]
    by_cases hc : 0 ≤ c
    · have : truncQ c = ⌊c⌋ := by unfold truncQ; rw [if_pos hc]
      rw [this]
    · have hfrac : fracPart c = 0 := by
        rcases not_and_or.1 h with h' | h'
        · exact (h' (not_le.mp hc)).elim
        · exact not_not.1 h'
      have hq : (truncQ c : ℚ) = c := (fracPart_eq_zero_iff c).1 hfrac
      have hfl : ⌊c⌋ = truncQ c := by
        nth_rewrite 1 [← hq]
        rw [Int.floor_intCast]
      rw [hfl]

/-- Moving left/up, the stepped-to value lies strictly before the current
coordinate. -/
theorem fvneg_lt (c : ℚ) : firstValueInNextCellNeg c < c := by
  rw [fvneg_eq]
  have := Int.floor_le c
  linarith [eps_pos]

/-- Moving left/up, stepping one whole cell back strictly decreases the
stepped-to value. -/
theorem fvneg_step (c : ℚ) : firstValueInNextCellNeg (c + -1) ≤ firstValueInNextCellNeg c := by
  rw [fvneg_eq, fvneg_eq]
  have : ⌊c + -1⌋ = ⌊c⌋ - 1 := by
    have := Int.floor_sub_int c 1
    simpa [sub_eq_add_neg] using this
  rw [this]
  push_cast
  linarith

/-! ### Proof layer: ordering of sweep events -/

theorem pointAxisLoop_facts (start delta : ℚ) (sign : ℤ) (yv : V2)
    (hsd : (0 < delta ∧ sign = 1) ∨ (delta < 0 ∧ sign = -1)) :
    ∀ (fuel : ℕ) (coord : ℤ),
      (∀ e ∈ pointAxisLoop start delta sign yv coord fuel,
        (((coord + sign : ℤ) : ℚ) - start) / delta ≤ e.1 ∧ e.2 = yv) ∧
      (pointAxisLoop start delta sign yv coord fuel).Pairwise (fun a b => a.1 < b.1) := by
  have hstep : (0 : ℚ) < (sign : ℚ) / delta := by
    rcases hsd with ⟨hd, hs⟩ | ⟨hd, hs⟩
    · subst hs; exact div_pos (by norm_num) hd
    · subst hs; rw [show ((-1 : ℤ) : ℚ) = -1 by norm_num]
      exact div_pos_of_neg_of_neg (by norm_num) hd
  intro fuel
  induction fuel with
  | zero => exact fun coord => ⟨fun e he => absurd he (by simp [pointAxisLoop]), by
      simp [pointAxisLoop]⟩
  | succ n ih =>
    intro coord
    rw [pointAxisLoop]
    by_cases ht : (((coord + sign : ℤ) : ℚ) - start) / delta > 1
    · rw [if_pos ht]
      exact ⟨fun e he => absurd he (by simp), by simp⟩
    · rw [if_neg ht]
      have ihr := ih (coord + sign)
      have hlt : (((coord + sign : ℤ) : ℚ) - start) / delta <
          (((coord + sign + sign : ℤ) : ℚ) - start) / delta := by
        have : (((coord + sign + sign : ℤ) : ℚ) - start) / delta =
            (((coord + sign : ℤ) : ℚ) - start) / delta + (sign : ℚ) / delta := by
          push_cast
          ring
        rw [this]
        linarith
      constructor
      · intro e he
        rcases List.mem_cons.1 he with rfl | htail
        · exact ⟨le_refl _, rfl⟩
        · exact ⟨le_of_lt (lt_of_lt_of_le hlt ((ihr.1 e htail).1)), (ihr.1 e htail).2⟩
      · rw [List.pairwise_cons]
        exact ⟨fun e he => lt_of_lt_of_le hlt (ihr.1 e he).1, ihr.2⟩

theorem axisTail_facts (start delta : ℚ) (yv : V2) :
    ∀ e ∈ (t_and_aligned_coord_tuples start delta yv).tail, 0 < e.1 ∧ e.2 = yv := by
  intro e he
  unfold t_and_aligned_coord_tuples at he
  by_cases hd : delta = 0
  · simp [hd] at he
  · rw [if_neg hd] at he
    simp only [List.tail_cons] at he
    by_cases hpos : delta > 0
    · have hsd : (0 < delta ∧ (if delta > 0 then (1 : ℤ) else -1) = 1) ∨
          (delta < 0 ∧ (if delta > 0 then (1 : ℤ) else -1) = -1) := by
        left; exact ⟨hpos, if_pos hpos⟩
      have hf := (pointAxisLoop_facts start delta _ yv hsd (pointFuel delta) (truncQ start)).1 e he
      refine ⟨lt_of_lt_of_le ?_ hf.1, hf.2⟩
      rw [if_pos hpos]
      have hb := (truncQ_bounds start).1
      apply div_pos ?_ hpos
      push_cast
      linarith
    · have hneg : delta < 0 := lt_of_le_of_ne (not_lt.1 hpos) hd
      have hsd : (0 < delta ∧ (if delta > 0 then (1 : ℤ) else -1) = 1) ∨
          (delta < 0 ∧ (if delta > 0 then (1 : ℤ) else -1) = -1) := by
        right; exact ⟨hneg, if_neg hpos⟩
      have hf := (pointAxisLoop_facts start delta _ yv hsd (pointFuel delta) (truncQ start)).1 e he
      refine ⟨lt_of_lt_of_le ?_ hf.1, hf.2⟩
      rw [if_neg hpos]
      have hb := (truncQ_bounds start).2
      apply div_pos_of_neg_of_neg ?_ hneg
      push_cast
      linarith

theorem axisList_pairwise (start delta : ℚ) (yv : V2) :
    (t_and_aligned_coord_tuples start delta yv).Pairwise (fun a b => a.1 < b.1) := by
  have htail := axisTail_facts start delta yv
  unfold t_and_aligned_coord_tuples at htail ⊢
  by_cases hd : delta = 0
  · simp [hd]
  · rw [if_neg hd] at htail ⊢
    simp only [List.tail_cons] at htail
    rw [List.pairwise_cons]
    refine ⟨fun e he => (htail e he).1, ?_⟩
    by_cases hpos : delta > 0
    · exact (pointAxisLoop_facts start delta _ yv
        (Or.inl ⟨hpos, if_pos hpos⟩) (pointFuel delta) (truncQ start)).2
    · exact (pointAxisLoop_facts start delta _ yv
        (Or.inr ⟨lt_of_le_of_ne (not_lt.1 hpos) hd, if_neg hpos⟩)
        (pointFuel delta) (truncQ start)).2

theorem mergeBy_mem {α : Type} (comb : α → α → α) :
    ∀ (xs ys : List (ℚ × α)) (e : ℚ × α), e ∈ mergeBy comb xs ys →
      e ∈ xs ∨ e ∈ ys ∨ ∃ x ∈ xs, ∃ y ∈ ys, e = (x.1, comb x.2 y.2) := by
  intro xs
  induction xs with
  | nil =>
    intro ys e he
    simp only [mergeBy] at he
    exact Or.inr (Or.inl he)
  | cons x xs ihx =>
    intro ys
    induction ys with
    | nil =>
      intro e he
      simp only [mergeBy] at he
      exact Or.inl he
    | cons y ys ihy =>
      intro e he
      simp only [mergeBy] at he
      split_ifs at he with h1 h2
      · rcases List.mem_cons.1 he with rfl | htail
        · exact Or.inr (Or.inr ⟨x, List.mem_cons_self x xs, y, List.mem_cons_self y ys, rfl⟩)
        · rcases ihx ys e htail with h | h | ⟨a, ha, b, hb, hab⟩
          · exact Or.inl (List.mem_cons_of_mem x h)
          · exact Or.inr (Or.inl (List.mem_cons_of_mem y h))
          · exact Or.inr (Or.inr ⟨a, List.mem_cons_of_mem x ha, b, List.mem_cons_of_mem y hb, hab⟩)
      · rcases List.mem_cons.1 he with rfl | htail
        · exact Or.inl (List.mem_cons_self e xs)
        · rcases ihx (y :: ys) e htail with h | h | ⟨a, ha, b, hb, hab⟩
          · exact Or.inl (List.mem_cons_of_mem x h)
          · exact Or.inr (Or.inl h)
          · exact Or.inr (Or.inr ⟨a, List.mem_cons_of_mem x ha, b, hb, hab⟩)
      · rcases List.mem_cons.1 he with rfl | htail
        · exact Or.inr (Or.inl (List.mem_cons_self e ys))
        · rcases ihy e htail with h | h | ⟨a, ha, b, hb, hab⟩
          · exact Or.inl h
          · exact Or.inr (Or.inl (List.mem_cons_of_mem y h))
          · exact Or.inr (Or.inr ⟨a, ha, b, List.mem_cons_of_mem y hb, hab⟩)

theorem mergeBy_pairwise {α : Type} (comb : α → α → α) :
    ∀ (xs ys : List (ℚ × α)), xs.Pairwise (fun a b => a.1 ≤ b.1) →
      ys.Pairwise (fun a b => a.1 ≤ b.1) →
      (mergeBy comb xs ys).Pairwise (fun a b => a.1 ≤ b.1) := by
  intro xs
  induction xs with
  | nil =>
    intro ys hx hy
    simpa only [mergeBy] using hy
  | cons x xs ihx =>
    intro ys
    induction ys with
    | nil =>
      intro hx hy
      simpa only [mergeBy] using hx
    | cons y ys ihy =>
      intro hx hy
      rw [List.pairwise_cons] at hx hy
      simp only [mergeBy]
      split_ifs with h1 h2
      · rw [List.pairwise_cons]
        constructor
        · intro e he
          rcases mergeBy_mem comb xs ys e he with h | h | ⟨a, ha, b, hb, hab⟩
          · exact hx.1 e h
          · exact h1 ▸ hy.1 e h
          · rw [hab]; exact hx.1 a ha
        · exact ihx ys hx.2 hy.2
      · rw [List.pairwise_cons]
        constructor
        · intro e he
          rcases mergeBy_mem comb xs (y :: ys) e he with h | h | ⟨a, ha, b, hb, hab⟩
          · exact hx.1 e h
          · rcases List.mem_cons.1 h with rfl | h'
            · exact le_of_lt h2
            · exact le_of_lt (lt_of_lt_of_le h2 (hy.1 e h'))
          · rw [hab]; exact hx.1 a ha
        · exact ihx (y :: ys) hx.2 (List.pairwise_cons.2 hy)
      · have h3 : y.1 < x.1 := by
          rcases lt_trichotomy x.1 y.1 with h | h | h
          · exact absurd h h2
          · exact absurd h h1
          · exact h
        rw [List.pairwise_cons]
        constructor
        · intro e he
          rcases mergeBy_mem comb (x :: xs) ys e he with h | h | ⟨a, ha, b, hb, hab⟩
          · rcases List.mem_cons.1 h with rfl | h'
            · exact le_of_lt h3
            · exact le_of_lt (lt_of_lt_of_le h3 (hx.1 e h'))
          · exact hy.1 e h
          · rw [hab]
            rcases List.mem_cons.1 ha with rfl | h'
            · exact le_of_lt h3
            · exact le_of_lt (lt_of_lt_of_le h3 (hx.1 a h'))
        · exact ihy (List.pairwise_cons.2 hx) hy.2

theorem cull_sublist : ∀ (l : List Event) (p : Option (List Tile)),
    (cullRedundant p l).Sublist l := by
  intro l
  induction l with
  | nil => intro p; cases p <;> simp [cullRedundant]
  | cons e rest ih =>
    intro p
    cases p with
    | none => exact List.Sublist.cons₂ e (ih (some e.2.2))
    | some prev =>
      by_cases h : sameHitSet prev e.2.2
      · simpa [cullRedundant, h] using List.Sublist.cons e (ih (some prev))
      · simpa [cullRedundant, h] using List.Sublist.cons₂ e (ih (some e.2.2))

theorem cull_chain : ∀ (l : List Event),
    (∀ p : List Tile,
      (cullRedundant (some p) l).Chain' (fun a b => sameHitSet a.2.2 b.2.2 = false) ∧
      ∀ e ∈ (cullRedundant (some p) l).head?, sameHitSet p e.2.2 = false) ∧
    (cullRedundant none l).Chain' (fun a b => sameHitSet a.2.2 b.2.2 = false) := by
  intro l
  induction l with
  | nil => exact ⟨fun p => ⟨by simp [cullRedundant], by simp [cullRedundant]⟩,
      by simp [cullRedundant]⟩
  | cons e rest ih =>
    constructor
    · intro p
      by_cases h : sameHitSet p e.2.2
      · simp only [cullRedundant, if_pos h]
        exact (ih.1 p)
      · have hfalse : sameHitSet p e.2.2 = false := by
          cases hb : sameHitSet p e.2.2
          · rfl
          · exact absurd hb h
        simp only [cullRedundant, if_neg h]
        constructor
        · rw [List.chain'_cons']
          exact ⟨fun y hy => (ih.1 e.2.2).2 y hy, (ih.1 e.2.2).1⟩
        · intro e' he'
          simp only [List.head?_cons, Option.mem_def, Option.some.injEq] at he'
          rw [← he']
          exact hfalse
    · simp only [cullRedundant]
      rw [List.chain'_cons']
      exact ⟨fun y hy => (ih.1 e.2.2).2 y hy, (ih.1 e.2.2).1⟩

theorem pointEmitP_fst_sublist (look : V2 → List Tile) (pos delta : V2) :
    ∀ (cs : List (ℚ × V2)) (cell : V2),
      ((pointEmitP look pos delta cell cs).map (fun e => e.1)).Sublist
        (cs.map (fun c => c.1)) := by
  intro cs
  induction cs with
  | nil => intro cell; simp [pointEmitP]
  | cons c rest ih =>
    intro cell
    obtain ⟨t, cd⟩ := c
    simp only [pointEmitP, List.map_cons]
    by_cases h : look (cell + cd) ≠ []
    · rw [if_pos h]
      simpa using List.Sublist.cons₂ t (ih (cell + cd))
    · rw [if_neg h]
      simpa using List.Sublist.cons t (ih (cell + cd))

theorem pawnAxisP_facts (look : V2 → List Tile) (size pos delta : V2)
    (start scalar_delta : ℚ) (isX posdir : Bool)
    (hsd : (posdir = true ∧ 0 < scalar_delta) ∨ (posdir = false ∧ scalar_delta < 0)) :
    ∀ (fuel : ℕ) (axis_pos : ℚ) (npc : ℤ),
      (∀ e ∈ pawnAxisP look size pos delta start scalar_delta isX posdir axis_pos npc fuel,
        (firstValueInNextCell posdir axis_pos - start) / scalar_delta ≤ e.1) ∧
      (pawnAxisP look size pos delta start scalar_delta isX posdir
        axis_pos npc fuel).Pairwise (fun a b => a.1 ≤ b.1) := by
  intro fuel
  induction fuel with
  | zero => exact fun ap npc => ⟨fun e he => absurd he (by simp [pawnAxisP]),
      by simp [pawnAxisP]⟩
  | succ n ih =>
    intro ap npc
    rw [pawnAxisP]
    by_cases ht : (firstValueInNextCell posdir ap - start) / scalar_delta > 1
    · rw [if_pos ht]
      exact ⟨fun e he => absurd he (by simp), by simp⟩
    · rw [if_neg ht]
      have hstepmono : (firstValueInNextCell posdir ap - start) / scalar_delta ≤
          (firstValueInNextCell posdir (ap + (if posdir then (1 : ℚ) else -1)) - start)
            / scalar_delta := by
        rcases hsd with ⟨hp, hd⟩ | ⟨hp, hd⟩
        · subst hp
          have hfv1 : firstValueInNextCell true ap = firstValueInNextCellPos ap := by
            simp [firstValueInNextCell]
          have hfv2 : firstValueInNextCell true (ap + (if (true : Bool) then (1 : ℚ) else -1)) =
              firstValueInNextCellPos (ap + 1) := by
            simp [firstValueInNextCell]
          rw [hfv1, hfv2, div_le_div_iff_of_pos_right hd]
          have := fvpos_step ap
          linarith
        · subst hp
          have hfv1 : firstValueInNextCell false ap = firstValueInNextCellNeg ap := by
            simp [firstValueInNextCell]
          have hfv2 : firstValueInNextCell false (ap + (if (false : Bool) then (1 : ℚ) else -1)) =
              firstValueInNextCellNeg (ap + -1) := by
            simp [firstValueInNextCell]
          rw [hfv1, hfv2]
          have hstep := fvneg_step ap
          have hq : 0 ≤ (firstValueInNextCellNeg (ap + -1) - start) / scalar_delta -
              (firstValueInNextCellNeg ap - start) / scalar_delta := by
            rw [div_sub_div_same]
            exact div_nonneg_of_nonpos (by linarith) (le_of_lt hd)
          linarith
      set t := (firstValueInNextCell posdir ap - start) / scalar_delta with hTdef
      set np := pawnStepPos pos delta t isX posdir npc with hNp
      have ihr := ih (ap + (if posdir then (1 : ℚ) else -1)) (npc + (if posdir then 1 else -1))
      have hevs : ∀ e ∈ (match collidePawnP look size np with
          | some (h :: hs) => [(t, np, h :: hs)]
          | _ => ([] : List Event)), e.1 = t := by
        cases hcp : collidePawnP look size np with
        | none => simp
        | some l =>
          cases l with
          | nil => simp
          | cons a as => intro e he; simp at he; rw [he]
      constructor
      · intro e he
        rcases List.mem_append.1 he with h | h
        · rw [hevs e h]
        · exact le_trans hstepmono (ihr.1 e h)
      · rw [List.pairwise_append]
        refine ⟨?_, ihr.2, ?_⟩
        · cases hcp : collidePawnP look size np with
          | none => simp
          | some l => cases l with
            | nil => simp
            | cons a as => simp
        · intro a ha b hb
          rw [hevs a ha]
          exact le_trans hstepmono (ihr.1 b hb)

theorem checkP_facts (look : V2 → List Tile) (size pos delta : V2)
    (start scalar_delta : ℚ) (isX : Bool) :
    (∀ e ∈ checkP look size pos delta start scalar_delta isX, 0 < e.1) ∧
    (checkP look size pos delta start scalar_delta isX).Pairwise (fun a b => a.1 ≤ b.1) := by
  unfold checkP
  by_cases h : scalar_delta = 0
  · rw [if_pos h]
    exact ⟨fun e he => absurd he (by simp), by simp⟩
  · rw [if_neg h]
    by_cases hpos : scalar_delta > 0
    · have hsd : ((if scalar_delta > 0 then true else false) = true ∧ 0 < scalar_delta) ∨
          ((if scalar_delta > 0 then true else false) = false ∧ scalar_delta < 0) :=
        Or.inl ⟨if_pos hpos, hpos⟩
      have hf := pawnAxisP_facts look size pos delta start scalar_delta isX _ hsd
        (pawnFuel scalar_delta) start
        (coordToCell (if scalar_delta > 0 then true else false)
            (if isX then pos.x else pos.y) +
          (if (if scalar_delta > 0 then true else false) then 1 else -1))
      refine ⟨fun e he => lt_of_lt_of_le ?_ (hf.1 e he), hf.2⟩
      have hgt : start < firstValueInNextCell (if scalar_delta > 0 then true else false) start := by
        rw [if_pos hpos]
        simpa [firstValueInNextCell] using fvpos_gt start
      exact div_pos (by linarith) hpos
    · have hneg : scalar_delta < 0 := lt_of_le_of_ne (not_lt.1 hpos) h
      have hsd : ((if scalar_delta > 0 then true else false) = true ∧ 0 < scalar_delta) ∨
          ((if scalar_delta > 0 then true else false) = false ∧ scalar_delta < 0) :=
        Or.inr ⟨if_neg hpos, hneg⟩
      have hf := pawnAxisP_facts look size pos delta start scalar_delta isX _ hsd
        (pawnFuel scalar_delta) start
        (coordToCell (if scalar_delta > 0 then true else false)
            (if isX then pos.x else pos.y) +
          (if (if scalar_delta > 0 then true else false) then 1 else -1))
      refine ⟨fun e he => lt_of_lt_of_le ?_ (hf.1 e he), hf.2⟩
      have hlt : firstValueInNextCell (if scalar_delta > 0 then true else false) start < start := by
        rw [if_neg hpos]
        simpa [firstValueInNextCell] using fvneg_lt start
      exact div_pos_of_neg_of_neg (by linarith) hneg

theorem mergedP_facts (look : V2 → List Tile) (size delta pos : V2) :
    (∀ e ∈ mergedP look size delta pos, 0 < e.1) ∧
    (mergedP look size delta pos).Pairwise (fun a b => a.1 ≤ b.1) ∧
    (mergedP look size delta pos).Chain' (fun a b => sameHitSet a.2.2 b.2.2 = false) := by
  unfold mergedP
  dsimp only
  set xev := if delta.x ≥ 0 then checkP look size pos delta (pos + size).x delta.x true
    else checkP look size pos delta pos.x delta.x true with hxev
  set yev := if delta.y ≥ 0 then checkP look size pos delta (pos + size).y delta.y false
    else checkP look size pos delta pos.y delta.y false with hyev
  have hx : (∀ e ∈ xev, 0 < e.1) ∧ xev.Pairwise (fun a b => a.1 ≤ b.1) := by
    rw [hxev]; split_ifs <;> exact checkP_facts look size pos delta _ delta.x true
  have hy : (∀ e ∈ yev, 0 < e.1) ∧ yev.Pairwise (fun a b => a.1 ≤ b.1) := by
    rw [hyev]; split_ifs <;> exact checkP_facts look size pos delta _ delta.y false
  set merged := mergeBy (fun a b => (a.1, hitUnion a.2 b.2)) xev yev with hmerged
  have hmem : ∀ e ∈ merged, 0 < e.1 := by
    intro e he
    rcases mergeBy_mem _ xev yev e he with h | h | ⟨a, ha, b, hb, hab⟩
    · exact hx.1 e h
    · exact hy.1 e h
    · rw [hab]; exact hx.1 a ha
  have hpw : merged.Pairwise (fun a b => a.1 ≤ b.1) :=
    mergeBy_pairwise _ xev yev hx.2 hy.2
  have hsub := cull_sublist merged (none : Option (List Tile))
  exact ⟨fun e he => hmem e (hsub.subset he),
    List.Pairwise.sublist hsub hpw,
    (cull_chain merged).2⟩

/-! ### Proof layer: hit sets -/

/-- Two hit tuples hold the same set of tiles. -/
def HitSetEq (a b : List Tile) : Prop := ∀ t : Tile, t ∈ a ↔ t ∈ b

theorem memB_eq_true (t : Tile) (l : List Tile) : memB t l = true ↔ t ∈ l := by
  unfold memB; split <;> simp_all

theorem sameHitSet_true_iff (a b : List Tile) : sameHitSet a b = true ↔ HitSetEq a b := by
  unfold sameHitSet HitSetEq
  rw [Bool.and_eq_true, List.all_eq_true, List.all_eq_true]
  constructor
  · intro ⟨h1, h2⟩ t
    constructor
    · intro ht; exact (memB_eq_true t b).1 (h1 t ht)
    · intro ht; exact (memB_eq_true t a).1 (h2 t ht)
  · intro h
    constructor
    · intro t ht; exact (memB_eq_true t b).2 ((h t).1 ht)
    · intro t ht; exact (memB_eq_true t a).2 ((h t).2 ht)

theorem sameHitSet_false_of (a b : List Tile) (h : sameHitSet a b = false) : ¬ HitSetEq a b := by
  intro hh
  rw [← sameHitSet_true_iff] at hh
  rw [hh] at h
  exact absurd h (by simp)

@[simp] theorem V2.add_zero_right (v : V2) : v + (⟨0, 0⟩ : V2) = v := by
  cases v; simp

@[simp] theorem V2.smul_zero_right (v : V2) : v.smul 0 = (⟨0, 0⟩ : V2) := by
  cases v; simp

/-- Tiles in distinct cells give distinct hit sets when each tile's stored
cell is its own position. -/
theorem hitSetNe_of_cells (look : V2 → List Tile)
    (hInv : ∀ (c : V2) (t : Tile), t ∈ look c → t.pos = c) (c₁ c₂ : V2)
    (h₁ : look c₁ ≠ []) (hne : c₁ ≠ c₂) : ¬ HitSetEq (look c₁) (look c₂) := by
  intro heq
  obtain ⟨t, ht⟩ := List.exists_mem_of_ne_nil _ h₁
  have h2 := (heq t).1 ht
  exact hne ((hInv c₁ t ht).symm.trans (hInv c₂ t h2))

theorem pointEmitP_t_mem (look : V2 → List Tile) (pos delta : V2)
    (cs : List (ℚ × V2)) (cell : V2) (e : Event)
    (he : e ∈ pointEmitP look pos delta cell cs) : ∃ c ∈ cs, e.1 = c.1 := by
  have hsub := pointEmitP_fst_sublist look pos delta cs cell
  have hmem : e.1 ∈ (pointEmitP look pos delta cell cs).map (fun e => e.1) :=
    List.mem_map.2 ⟨e, he, rfl⟩
  obtain ⟨c, hc, hc2⟩ := List.mem_map.1 (hsub.subset hmem)
  exact ⟨c, hc, hc2.symm⟩

theorem pointEmitP_pairwise_facts (look : V2 → List Tile)
    (hInv : ∀ (c : V2) (t : Tile), t ∈ look c → t.pos = c) (pos delta : V2) :
    ∀ (cs : List (ℚ × V2)) (cell : V2),
      (∀ e ∈ cs, 0 ≤ e.2.x ∧ 0 ≤ e.2.y ∧ 1 ≤ e.2.x + e.2.y) →
      (pointEmitP look pos delta cell cs).Pairwise
        (fun a b => ¬ HitSetEq a.2.2 b.2.2) ∧
      ∀ ev ∈ pointEmitP look pos delta cell cs, ∃ c : V2,
        ev.2.2 = look c ∧ look c ≠ [] ∧ cell.x + cell.y + 1 ≤ c.x + c.y := by
  intro cs
  induction cs with
  | nil => exact fun cell _ => ⟨by simp [pointEmitP], fun ev hev => absurd hev (by
      simp [pointEmitP])⟩
  | cons c rest ih =>
    intro cell hP
    obtain ⟨t, cd⟩ := c
    have hPc := hP (t, cd) (List.mem_cons_self _ _)
    have hPrest : ∀ e ∈ rest, 0 ≤ e.2.x ∧ 0 ≤ e.2.y ∧ 1 ≤ e.2.x + e.2.y :=
      fun e he => hP e (List.mem_cons_of_mem _ he)
    have ihr := ih (cell + cd) hPrest
    have hsum : cell.x + cell.y + 1 ≤ (cell + cd).x + (cell + cd).y := by
      simp only [V2.add_x, V2.add_y]
      obtain ⟨h1, h2, h3⟩ := hPc
      simp only at h1 h2 h3
      linarith
    constructor
    · simp only [pointEmitP]
      rw [List.pairwise_append]
      refine ⟨?_, ihr.1, ?_⟩
      · split_ifs <;> simp
      · intro a ha b hb
        by_cases hne : look (cell + cd) ≠ []
        · rw [if_pos hne] at ha
          simp only [List.mem_singleton] at ha
          obtain ⟨c2, hc2, hc2ne, hc2sum⟩ := ihr.2 b hb
          rw [ha, hc2]
          have hcellne : (cell + cd) ≠ c2 := by
            intro hh
            rw [hh] at hc2sum
            linarith
          exact hitSetNe_of_cells look hInv (cell + cd) c2 hne hcellne
        · rw [if_neg hne] at ha
          exact absurd ha (by simp)
    · intro ev hev
      simp only [pointEmitP] at hev
      rcases List.mem_append.1 hev with h | h
      · by_cases hne : look (cell + cd) ≠ []
        · rw [if_pos hne] at h
          simp only [List.mem_singleton] at h
          exact ⟨cell + cd, by rw [h], hne, hsum⟩
        · rw [if_neg hne] at h
          exact absurd h (by simp)
      · obtain ⟨c2, hc2, hc2ne, hc2sum⟩ := ihr.2 ev h
        exact ⟨c2, hc2, hc2ne, by linarith⟩

/-- The merged crossing list starts with the combined `t = 0` entry, and
`pointEmitP` turns it into the starting-cell check. -/
theorem movingPointP_decomp (look : V2 → List Tile) (pos delta : V2) :
    movingPointP look pos delta =
      (if look (pointStartCell pos) ≠ []
        then [(0, pos, look (pointStartCell pos))] else []) ++
      pointEmitP look pos delta (pointStartCell pos)
        (mergeBy (· + ·) (t_and_aligned_coord_tuples pos.x delta.x ⟨1, 0⟩).tail
          (t_and_aligned_coord_tuples pos.y delta.y ⟨0, 1⟩).tail) := by
  unfold movingPointP t_and_aligned_coord_tuples
  simp only [mergeBy, List.tail_cons]
  rw [if_pos trivial]
  simp only [pointEmitP]
  have hz : ((⟨0, 0⟩ : V2) + ⟨0, 0⟩) = (⟨0, 0⟩ : V2) := by simp
  rw [hz, V2.add_zero_right, V2.smul_zero_right, V2.add_zero_right]

/-- Every post-`t = 0` merged crossing has a positive time. -/
theorem mergedTail_pos (pos delta : V2) :
    ∀ e ∈ mergeBy (· + ·) (t_and_aligned_coord_tuples pos.x delta.x ⟨1, 0⟩).tail
      (t_and_aligned_coord_tuples pos.y delta.y ⟨0, 1⟩).tail, 0 < e.1 := by
  intro e he
  rcases mergeBy_mem _ _ _ e he with h | h | ⟨a, ha, b, hb, hab⟩
  · exact (axisTail_facts pos.x delta.x _ e h).1
  · exact (axisTail_facts pos.y delta.y _ e h).1
  · rw [hab]; exact (axisTail_facts pos.x delta.x _ a ha).1

/-- Every post-`t = 0` merged crossing's cell step is a unit step right,
down, or diagonally. -/
theorem mergedTail_Pd (pos delta : V2) :
    ∀ e ∈ mergeBy (· + ·) (t_and_aligned_coord_tuples pos.x delta.x ⟨1, 0⟩).tail
      (t_and_aligned_coord_tuples pos.y delta.y ⟨0, 1⟩).tail,
      0 ≤ e.2.x ∧ 0 ≤ e.2.y ∧ 1 ≤ e.2.x + e.2.y := by
  intro e he
  rcases mergeBy_mem _ _ _ e he with h | h | ⟨a, ha, b, hb, hab⟩
  · rw [(axisTail_facts pos.x delta.x _ e h).2]
    norm_num
  · rw [(axisTail_facts pos.y delta.y _ e h).2]
    norm_num
  · rw [hab]
    have hx := (axisTail_facts pos.x delta.x _ a ha).2
    have hy := (axisTail_facts pos.y delta.y _ b hb).2
    simp only [hx, hy]
    norm_num

/-! ### Remaining helper lemmas -/

theorem truncQ_eq_int (x : ℤ) (q : ℚ) (hx : 0 ≤ x) (h1 : (x : ℚ) ≤ q) (h2 : q < x + 1) :
    truncQ q = x := by
  have hq : 0 ≤ q := le_trans (by exact_mod_cast hx) h1
  unfold truncQ
  rw [if_pos hq]
  rw [Int.floor_eq_iff]
  exact ⟨h1, h2⟩

theorem gatherP_mem_ne (look : V2 → List Tile) :
    ∀ (cs : List V2) (l : List Tile), l ∈ gatherP look cs → l ≠ [] := by
  intro cs
  induction cs with
  | nil => intro l hl; exact absurd hl (by simp [gatherP])
  | cons c rest ih =>
    intro l hl
    simp only [gatherP, List.mem_append] at hl
    rcases hl with hl | hl
    · split_ifs at hl with h
      · simp only [List.mem_singleton] at hl
        rw [hl]; exact h
      · exact absurd hl (by simp)
    · exact ih l hl

theorem mem_guard_ne {L l : List Tile} (hl : l ∈ (if L ≠ [] then [L] else [])) : l ≠ [] := by
  split_ifs at hl with h
  · simp only [List.mem_singleton] at hl
    rw [hl]; exact h
  · exact absurd hl (by simp)

theorem flatten_cons_of (L : List (List Tile)) (hne : L ≠ []) (hmem : ∀ l ∈ L, l ≠ []) :
    ∃ (h : Tile) (rest : List Tile), L.flatten = h :: rest := by
  cases L with
  | nil => exact absurd rfl hne
  | cons l L' =>
    cases l with
    | nil => exact absurd rfl (hmem [] (List.mem_cons_self _ _))
    | cons a l' => exact ⟨a, l' ++ L'.flatten, by simp⟩

/-! ### Concrete scenarios used by the claims -/

/-- The spec's cell containing a position (§3): componentwise floor
(floor-with-negative-correction).  Stated from the spec's words, to compare
against the code's cell computations. -/
def specFloorCell (pos : V2) : V2 := ⟨(⌊pos.x⌋ : ℚ), (⌊pos.y⌋ : ℚ)⟩

def c1tile : Tile := ⟨1, ⟨0, 0⟩⟩
def c1state : GridState × Except GridError Unit :=
  GridCollider.remove (GridCollider.add (GridCollider.new ⟨10, 10⟩) c1tile).1 c1tile

def c2a : Tile := ⟨1, ⟨0, 0⟩⟩
def c2b : Tile := ⟨2, ⟨0, 0⟩⟩
def c2c : Tile := ⟨3, ⟨0, 0⟩⟩
def c2grid : GridState :=
  (GridCollider.add (GridCollider.add (GridCollider.add
    (GridCollider.new ⟨10, 10⟩) c2a).1 c2b).1 c2c).1

def c4tile : Tile := ⟨1, ⟨-2, 5⟩⟩
def c4grid : GridState := (GridCollider.add (GridCollider.new ⟨10, 10⟩) c4tile).1

def c5tile : Tile := ⟨1, ⟨20, 20⟩⟩

def c6tile : Tile := ⟨1, ⟨1/2, 1/2⟩⟩

def c7tile : Tile := ⟨1, ⟨15, 20⟩⟩
def c7grid : GridState := (GridCollider.add (GridCollider.new ⟨200, 100⟩) c7tile).1

def tileB1 : Tile := ⟨1, ⟨15, 20⟩⟩
def tileB2 : Tile := ⟨2, ⟨16, 20⟩⟩
def tileB3 : Tile := ⟨3, ⟨17, 20⟩⟩

/-- Scenario B grid: tiles at `(15,20)`, `(16,20)`, `(17,20)`. -/
def gridB : GridState :=
  (GridCollider.add (GridCollider.add (GridCollider.add
    (GridCollider.new ⟨200, 100⟩) tileB1).1 tileB2).1 tileB3).1

def c10tile : Tile := ⟨1, ⟨-1, 0⟩⟩
def c10grid : GridState := (GridCollider.add (GridCollider.new ⟨10, 10⟩) c10tile).1

/-! ### Claims -/

/-- C1: the claim says a successful `remove(t)` takes `t` out of the
membership set so that `contains(t)` afterwards returns false.  The code
never removes the tile from `tiles_seen`: after `add` then `remove` of a
single tile, the tile is still in the membership set while its cell tuple is
empty, and `contains` fails its own consistency assertion (with assertions
disabled it would return `True`).  This evaluates the code at that failing
input. -/
theorem C1_remove_keeps_membership :
    (GridCollider.add (GridCollider.new ⟨10, 10⟩) c1tile).2 = .ok () ∧
    c1state.2 = .ok () ∧
    c1tile ∈ c1state.1.tiles_seen ∧
    lookupD c1state.1.grid ⟨0, 0⟩ = [] ∧
    (GridCollider.contains c1state.1 c1tile).2 = .error .assertionFailed := by
  norm_num [c1state, c1tile, GridCollider.new, GridCollider.add, GridCollider.remove,
    GridCollider.contains, dd_get, dd_set, assocFind, lookupD, tupleIndex]

/-- C2: the claim says `remove(a_i)` excludes exactly the matched element and
preserves every other element including the last.  With the cell tuple
`(a, b, c)`, removing `a` leaves `(b)` — the slice `value[index+1:-1]` drops
the true last element `c`.  This evaluates the code at that failing input. -/
theorem C2_remove_drops_last :
    (GridCollider.remove c2grid c2a).2 = .ok () ∧
    lookupD c2grid.grid ⟨0, 0⟩ = [c2a, c2b, c2c] ∧
    lookupD (GridCollider.remove c2grid c2a).1.grid ⟨0, 0⟩ = [c2b] ∧
    ([c2b] : List Tile) ≠ [c2b, c2c] := by
  norm_num [c2grid, c2a, c2b, c2c, GridCollider.new, GridCollider.add, GridCollider.remove,
    dd_get, dd_set, assocFind, lookupD, tupleIndex]

/-- C4: the claim says an aligned `1×1` pawn at `(x, y)` (including negative
coordinates) collides with exactly the tuple stored at cell `(x, y)`.  At the
aligned negative position `(-2, 5)` the code decrements the integer part even
though the fractional part is zero and queries cell `(-3, 5)`: the stored
tile at `(-2, 5)` is not reported.  This evaluates the code at that failing
input. -/
theorem C4_negative_aligned_miss :
    lookupD c4grid.grid ⟨-2, 5⟩ = [c4tile] ∧
    pawnCellCoord ⟨-2, 5⟩ = ⟨-3, 5⟩ ∧
    (GridCollider.collide_pawn c4grid ⟨1, 1⟩ ⟨-2, 5⟩).2 = some [] := by
  refine ⟨?_, ?_, ?_⟩
  · norm_num [c4grid, c4tile, GridCollider.new, GridCollider.add,
      dd_get, dd_set, assocFind, lookupD]
  · norm_num [pawnCellCoord, truncQ, Int.ceil_neg]
  · norm_num [c4grid, c4tile, GridCollider.new, GridCollider.add, GridCollider.collide_pawn,
      pawnCellCoord, fracPart, truncQ, Int.ceil_neg,
      dd_get, dd_set, assocFind, lookupD]

/-- C5: the claim says a failing `add` leaves the grid unchanged, in
particular an out-of-bounds tile is not recorded in the membership set.  The
code adds the tile to `tiles_seen` *before* the bounds check, so the rejected
tile stays recorded.  This evaluates the code at that failing input. -/
theorem C5_out_of_bounds_records_tile :
    (GridCollider.add (GridCollider.new ⟨10, 10⟩) c5tile).2 = .error .outOfBounds ∧
    (GridCollider.add (GridCollider.new ⟨10, 10⟩) c5tile).1.tiles_seen = [c5tile] ∧
    (GridCollider.new (⟨10, 10⟩ : V2)).tiles_seen = [] ∧
    ([c5tile] : List Tile) ≠ [] := by
  norm_num [c5tile, GridCollider.new, GridCollider.add, dd_get, dd_set, assocFind]

/-- C6 counterexample: a tile accepted at the fractional position
`(1/2, 1/2)` is keyed by its raw position vector, not by the floor cell
`(0, 0)`, and `collide_point` at a position inside its cell does not find
it. -/
theorem C6_counterexample :
    (GridCollider.add (GridCollider.new ⟨10, 10⟩) c6tile).2 = .ok () ∧
    specFloorCell ⟨1/2, 1/2⟩ = ⟨0, 0⟩ ∧
    lookupD (GridCollider.add (GridCollider.new ⟨10, 10⟩) c6tile).1.grid ⟨0, 0⟩ = [] ∧
    lookupD (GridCollider.add (GridCollider.new ⟨10, 10⟩) c6tile).1.grid ⟨1/2, 1/2⟩ =
      [c6tile] ∧
    (GridCollider.collide_point
      (GridCollider.add (GridCollider.new ⟨10, 10⟩) c6tile).1 ⟨1/2, 1/2⟩).2 = [] := by
  refine ⟨?_, ?_, ?_, ?_, ?_⟩ <;>
    norm_num [c6tile, specFloorCell, GridCollider.new, GridCollider.add,
      GridCollider.collide_point, pointStartCell, truncQ,
      dd_get, dd_set, assocFind, lookupD]

/-- C6 (amended): `add` keys an accepted tile by its exact position vector;
when that position is a pair of nonnegative integers this coincides with the
containing cell, and `collide_point` then finds the tile at every query
position inside the cell `[x, x+1) × [y, y+1)`. -/
theorem C6_integer_tiles_found :
    ∀ (s : GridState) (tile : Tile) (x y : ℤ),
      tile.pos = ⟨(x : ℚ), (y : ℚ)⟩ → 0 ≤ x → 0 ≤ y →
      (GridCollider.add s tile).2 = .ok () →
      lookupD (GridCollider.add s tile).1.grid tile.pos =
        lookupD s.grid tile.pos ++ [tile] ∧
      ∀ q : V2, (x : ℚ) ≤ q.x → q.x < x + 1 → (y : ℚ) ≤ q.y → q.y < y + 1 →
        tile ∈ (GridCollider.collide_point (GridCollider.add s tile).1 q).2 := by
  intro s tile x y hpos hx hy hadd
  have hstate : (GridCollider.add s tile).1 =
      { s with tiles_seen := s.tiles_seen ++ [tile],
               grid := dd_set (dd_get s.grid tile.pos).1 tile.pos
                 ((dd_get s.grid tile.pos).2 ++ [tile]) } := by
    unfold GridCollider.add at hadd ⊢
    by_cases h1 : tile ∈ s.tiles_seen
    · rw [if_pos h1] at hadd
      exact absurd hadd (by simp)
    · rw [if_neg h1] at hadd ⊢
      dsimp only at hadd ⊢
      by_cases h2 : tile.pos.x > s.size.x ∨ tile.pos.y > s.size.y
      · rw [if_pos h2] at hadd
        exact absurd hadd (by simp)
      · rw [if_neg h2]
  have hkey : lookupD (dd_set (dd_get s.grid tile.pos).1 tile.pos
      ((dd_get s.grid tile.pos).2 ++ [tile])) tile.pos =
      lookupD s.grid tile.pos ++ [tile] := by
    rw [lookupD_dd_set, if_pos rfl, dd_get_snd]
  constructor
  · rw [hstate]
    exact hkey
  · intro q hq1 hq2 hq3 hq4
    have hcell : pointStartCell q = tile.pos := by
      unfold pointStartCell
      rw [hpos, truncQ_eq_int x q.x hx hq1 hq2, truncQ_eq_int y q.y hy hq3 hq4]
    rw [(collide_point_agree ((GridCollider.add s tile).1) q).1, hcell, hstate]
    dsimp only
    rw [hkey]
    exact List.mem_append.2 (Or.inr (by simp))

/-- C6 witness: instantiating the amended claim at a concrete grid and
query. -/
theorem C6_witness :
    (GridCollider.add (GridCollider.new ⟨10, 10⟩) (⟨1, ⟨3, 4⟩⟩ : Tile)).2 = .ok () ∧
    (⟨1, ⟨3, 4⟩⟩ : Tile) ∈ (GridCollider.collide_point
      (GridCollider.add (GridCollider.new ⟨10, 10⟩) (⟨1, ⟨3, 4⟩⟩ : Tile)).1
      ⟨7/2, 9/2⟩).2 := by
  have hadd : (GridCollider.add (GridCollider.new ⟨10, 10⟩) (⟨1, ⟨3, 4⟩⟩ : Tile)).2 =
      .ok () := by
    norm_num [GridCollider.new, GridCollider.add, dd_get, dd_set, assocFind]
  refine ⟨hadd, ?_⟩
  have h := (C6_integer_tiles_found (GridCollider.new ⟨10, 10⟩) ⟨1, ⟨3, 4⟩⟩ 3 4
    (by norm_num) (by norm_num) (by norm_num) hadd).2 ⟨7/2, 9/2⟩
  exact h (by norm_num) (by norm_num) (by norm_num) (by norm_num)

/-- C3 counterexample: on the fast aligned path with an empty cell,
`collide_pawn` returns the empty tuple (here `some []`), not `None`. -/
theorem C3_counterexample :
    (GridCollider.collide_pawn (GridCollider.new ⟨10, 10⟩) ⟨1, 1⟩ ⟨5, 5⟩).2 =
      some [] ∧ (some ([] : List Tile)) ≠ none := by
  constructor
  · norm_num [GridCollider.collide_pawn, GridCollider.new, pawnCellCoord,
      fracPart, truncQ, dd_get, dd_set, assocFind, lookupD]
  · simp

/-- C3 (amended): `collide_pawn` never signals "no collision" with an empty
list on the 1×1 or general path — there it returns `None` when zero tiles
are found across the checked cells and a nonempty list otherwise; the fast
aligned path instead returns the stored tuple directly, which is empty
exactly when the cell is empty. -/
theorem C3_no_empty_list :
    ∀ (s : GridState) (size pos : V2),
      (fastPath size pos →
        (GridCollider.collide_pawn s size pos).2 =
          some (lookupD s.grid (pawnCellCoord pos))) ∧
      (¬ fastPath size pos →
        (GridCollider.collide_pawn s size pos).2 = none ∨
          ∃ (h : Tile) (rest : List Tile),
            (GridCollider.collide_pawn s size pos).2 = some (h :: rest)) := by
  intro s size pos
  rw [(collide_pawn_agree s size pos).1]
  unfold collidePawnP fastPath
  constructor
  · intro hf
    rw [if_pos hf]
  · intro hf
    rw [if_neg hf]
    by_cases h2 : size.x = 1 ∧ size.y = 1
    · rw [if_pos h2]
      dsimp only
      set hits2 := (if lookupD s.grid (pawnCellCoord pos) ≠ []
          then [lookupD s.grid (pawnCellCoord pos)] else []) ++
        (if fracPart pos.x ≠ 0 then
          (if lookupD s.grid (pawnCellCoord pos + ⟨1, 0⟩) ≠ []
            then [lookupD s.grid (pawnCellCoord pos + ⟨1, 0⟩)] else []) else []) ++
        (if fracPart pos.y ≠ 0 then
          ((if lookupD s.grid (pawnCellCoord pos + ⟨0, 1⟩) ≠ []
            then [lookupD s.grid (pawnCellCoord pos + ⟨0, 1⟩)] else []) ++
           (if fracPart pos.x ≠ 0 then
            (if lookupD s.grid (pawnCellCoord pos + ⟨1, 1⟩) ≠ []
              then [lookupD s.grid (pawnCellCoord pos + ⟨1, 1⟩)] else []) else []))
         else []) with hits2def
      by_cases hh : hits2 = []
      · left
        rw [if_pos hh]
      · right
        have hmem : ∀ l ∈ hits2, l ≠ [] := by
          intro l hl
          rw [hits2def] at hl
          split_ifs at hl <;> simp_all <;>
            (rcases hl with rfl | rfl | rfl | rfl <;> assumption)
        obtain ⟨h, rest, hfl⟩ := flatten_cons_of hits2 hh hmem
        exact ⟨h, rest, by rw [if_neg hh, hfl]⟩
    · rw [if_neg h2]
      dsimp only
      by_cases hh : gatherP (lookupD s.grid)
          (scanCells (pawnCellCoord pos)
            ((⌈size.x⌉ + (if fracPart pos.x = 0 then 0 else 1)).toNat)
            ((⌈size.y⌉ + (if fracPart pos.y = 0 then 0 else 1)).toNat)) = []
      · left
        rw [if_pos hh]
      · right
        obtain ⟨h, rest, hfl⟩ := flatten_cons_of _ hh (gatherP_mem_ne (lookupD s.grid) _)
        exact ⟨h, rest, by rw [if_neg hh, hfl]⟩

/-- C3 witness: the amended claim at a concrete non-fast-path input. -/
theorem C3_witness :
    ¬ fastPath ⟨1, 1⟩ ⟨29/2, 20⟩ ∧
    ((GridCollider.collide_pawn gridB ⟨1, 1⟩ ⟨29/2, 20⟩).2 = none ∨
      ∃ (h : Tile) (rest : List Tile),
        (GridCollider.collide_pawn gridB ⟨1, 1⟩ ⟨29/2, 20⟩).2 = some (h :: rest)) := by
  have hnf : ¬ fastPath ⟨1, 1⟩ ⟨29/2, 20⟩ := by
    norm_num [fastPath, fracPart, truncQ]
  exact ⟨hnf, (C3_no_empty_list gridB ⟨1, 1⟩ ⟨29/2, 20⟩).2 hnf⟩

/-- C8: Scenario B.  With exactly the tiles at `(15,20)`, `(16,20)`,
`(17,20)`, a point sweep from `(14,20)` by `(4,0)` yields exactly three
events, at `t = 1/4, 1/2, 3/4`, each hitting the single tile crossed, in
x-order. -/
theorem C8_scenario_B :
    (GridCollider.collide_moving_point gridB ⟨14, 20⟩ ⟨4, 0⟩).2 =
      [(1/4, ⟨15, 20⟩, [tileB1]), (1/2, ⟨16, 20⟩, [tileB2]),
       (3/4, ⟨17, 20⟩, [tileB3])] := by
  norm_num [gridB, tileB1, tileB2, tileB3, GridCollider.new, GridCollider.add,
    GridCollider.collide_moving_point, t_and_aligned_coord_tuples, pointAxisLoop,
    pointFuel, mergeBy, pointEmit, pointStartCell, dd_get, dd_set, assocFind,
    truncQ, V2.smul]

/-- C9: none of the four query operations changes the cell-to-tuple mapping
or the membership set: for every state, every cell's tuple after a query is
the tuple before it (reading a missing key through the defaultdict only
materializes the empty default), and `tiles_seen` is untouched. -/
theorem C9_queries_preserve_grid :
    ∀ (s : GridState) (pos delta size : V2),
      ((GridCollider.collide_point s pos).1.tiles_seen = s.tiles_seen ∧
        ∀ c : V2, lookupD (GridCollider.collide_point s pos).1.grid c =
          lookupD s.grid c) ∧
      ((GridCollider.collide_pawn s size pos).1.tiles_seen = s.tiles_seen ∧
        ∀ c : V2, lookupD (GridCollider.collide_pawn s size pos).1.grid c =
          lookupD s.grid c) ∧
      ((GridCollider.collide_moving_point s pos delta).1.tiles_seen = s.tiles_seen ∧
        ∀ c : V2, lookupD (GridCollider.collide_moving_point s pos delta).1.grid c =
          lookupD s.grid c) ∧
      ((GridCollider.collide_moving_pawn s size delta pos).1.tiles_seen = s.tiles_seen ∧
        ∀ c : V2, lookupD (GridCollider.collide_moving_pawn s size delta pos).1.grid c =
          lookupD s.grid c) := by
  intro s pos delta size
  exact ⟨⟨(collide_point_agree s pos).2.2,
      fun c => congrFun (collide_point_agree s pos).2.1 c⟩,
    ⟨(collide_pawn_agree s size pos).2.2,
      fun c => congrFun (collide_pawn_agree s size pos).2.1 c⟩,
    ⟨(collide_moving_point_agree s pos delta).2.2,
      fun c => congrFun (collide_moving_point_agree s pos delta).2.1 c⟩,
    ⟨(collide_moving_pawn_agree s size delta pos).2.2,
      fun c => congrFun (collide_moving_pawn_agree s size delta pos).2.1 c⟩⟩

/-- C10 counterexample: at the negative fractional position `(-1/2, 1/2)`
the cell containing the position (spec floor semantics) is `(-1, 0)`, which
holds a tile, yet the sweep with zero delta yields no event at all — the
code examines the truncated cell `(0, 0)` instead. -/
theorem C10_counterexample :
    lookupD c10grid.grid (specFloorCell ⟨-1/2, 1/2⟩) = [c10tile] ∧
    pointStartCell ⟨-1/2, 1/2⟩ = ⟨0, 0⟩ ∧
    (GridCollider.collide_moving_point c10grid ⟨-1/2, 1/2⟩ ⟨0, 0⟩).2 = [] := by
  have hfl : specFloorCell ⟨-1/2, 1/2⟩ = (⟨-1, 0⟩ : V2) := by
    unfold specFloorCell
    have h1 : ⌊(-1/2 : ℚ)⌋ = -1 := by
      rw [Int.floor_eq_iff]; norm_num
    have h2 : ⌊(1/2 : ℚ)⌋ = 0 := by norm_num
    rw [h1, h2]
    norm_num
  refine ⟨?_, ?_, ?_⟩
  · rw [hfl]
    norm_num [c10grid, c10tile, GridCollider.new, GridCollider.add, dd_get, dd_set,
      assocFind, lookupD]
  · norm_num [pointStartCell, truncQ, Int.ceil_neg]
  · norm_num [c10grid, c10tile, GridCollider.new, GridCollider.add,
      GridCollider.collide_moving_point, t_and_aligned_coord_tuples, pointAxisLoop,
      pointFuel, mergeBy, pointEmit, pointStartCell, dd_get, dd_set, assocFind,
      truncQ, Int.ceil_neg, V2.smul]

/-- C10 (amended): `collide_moving_point` always examines the *truncated*
starting cell (integer parts toward zero — the containing cell only for
nonnegative coordinates) at `t = 0`: if that cell holds at least one tile,
the first yielded event is `(0, pos, its occupants)` even with zero delta;
if that cell is empty, no `t = 0` event is yielded. -/
theorem C10_start_cell :
    ∀ (s : GridState) (pos delta : V2),
      (lookupD s.grid (pointStartCell pos) ≠ [] →
        ((GridCollider.collide_moving_point s pos delta).2).head? =
          some (0, pos, lookupD s.grid (pointStartCell pos))) ∧
      (lookupD s.grid (pointStartCell pos) = [] →
        ∀ e ∈ (GridCollider.collide_moving_point s pos delta).2, e.1 ≠ 0) := by
  intro s pos delta
  rw [(collide_moving_point_agree s pos delta).1, movingPointP_decomp]
  constructor
  · intro hne
    rw [if_pos hne]
    simp
  · intro hemp
    rw [if_neg (by simp [hemp])]
    simp only [List.nil_append]
    intro e he
    obtain ⟨c, hc, hct⟩ := pointEmitP_t_mem _ _ _ _ _ e he
    rw [hct]
    exact ne_of_gt (mergedTail_pos pos delta c hc)

/-- C10 witness: the amended claim at a concrete occupied starting cell. -/
theorem C10_witness :
    lookupD gridB.grid (pointStartCell ⟨15, 20⟩) ≠ [] ∧
    ((GridCollider.collide_moving_point gridB ⟨15, 20⟩ ⟨1, 1⟩).2).head? =
      some (0, ⟨15, 20⟩, lookupD gridB.grid (pointStartCell ⟨15, 20⟩)) := by
  have hne : lookupD gridB.grid (pointStartCell ⟨15, 20⟩) ≠ [] := by
    norm_num [gridB, tileB1, tileB2, tileB3, GridCollider.new, GridCollider.add,
      pointStartCell, truncQ, dd_get, dd_set, assocFind, lookupD]
  exact ⟨hne, (C10_start_cell gridB ⟨15, 20⟩ ⟨1, 1⟩).1 hne⟩

/-- C7 counterexample: the initial `t = 0` event of `collide_moving_pawn`
does not participate in the deduplication.  A 1×1 pawn at `(29/2, 20)`
moving by `(3/5, 0)` over a grid holding only a tile at `(15, 20)` yields
two consecutive events whose hit sets are both exactly that tile. -/
theorem C7_counterexample :
    (GridCollider.collide_moving_pawn c7grid ⟨1, 1⟩ ⟨3/5, 0⟩ ⟨29/2, 20⟩).2 =
      [(0, ⟨29/2, 20⟩, [c7tile]), (5/6 + 5/3 * eps, ⟨15 + eps, 20⟩, [c7tile])] ∧
    HitSetEq [c7tile] [c7tile] := by
  constructor
  · norm_num [c7grid, c7tile, GridCollider.new, GridCollider.add,
      GridCollider.collide_moving_pawn, movingPawnMerged, GridCollider.collide_pawn,
      check_moving_pawn_along_one_coordinate, pawnAxisLoop, pawnFuel, pawnStepPos,
      coordToCell, coordToCellPos, coordToCellNeg,
      firstValueInNextCell, firstValueInNextCellPos, firstValueInNextCellNeg,
      mergeBy, cullRedundant, sameHitSet, memB, hitUnion, pawnCellCoord,
      dd_get, dd_set, assocFind, lookupD, truncQ, fracPart, eps, V2.smul,
      gatherLoop, scanCells]
  · intro t
    exact Iff.rfl

/-- C7 (amended): events of both sweep queries are non-decreasing in `t`
(counting the initial `t = 0` event of `collide_moving_pawn`); consecutive
events of `collide_moving_point` never share an identical hit set when every
stored tile's cell is its own position; and within the merged post-`t = 0`
stream of `collide_moving_pawn` no two consecutive events share an identical
hit set — the initial `t = 0` event, however, is excluded from that
deduplication (see the counterexample). -/
theorem C7_monotone_and_dedup :
    (∀ (s : GridState) (pos delta : V2),
      ((GridCollider.collide_moving_point s pos delta).2).Pairwise
        (fun a b => a.1 ≤ b.1)) ∧
    (∀ (s : GridState) (pos delta : V2),
      (∀ (c : V2) (t : Tile), t ∈ lookupD s.grid c → t.pos = c) →
      ((GridCollider.collide_moving_point s pos delta).2).Chain'
        (fun a b => ¬ HitSetEq a.2.2 b.2.2)) ∧
    (∀ (s : GridState) (size delta pos : V2),
      ((GridCollider.collide_moving_pawn s size delta pos).2).Pairwise
        (fun a b => a.1 ≤ b.1)) ∧
    (∀ (s : GridState) (size delta pos : V2),
      ((movingPawnMerged s size delta pos).2).Chain'
        (fun a b => ¬ HitSetEq a.2.2 b.2.2)) := by
  refine ⟨?_, ?_, ?_, ?_⟩
  · intro s pos delta
    rw [(collide_moving_point_agree s pos delta).1]
    unfold movingPointP
    have hx := (axisList_pairwise pos.x delta.x ⟨1, 0⟩).imp
      (fun h => le_of_lt h)
    have hy := (axisList_pairwise pos.y delta.y ⟨0, 1⟩).imp
      (fun h => le_of_lt h)
    have hm := mergeBy_pairwise (· + ·) _ _ hx hy
    have hms : ((mergeBy (· + ·) (t_and_aligned_coord_tuples pos.x delta.x ⟨1, 0⟩)
        (t_and_aligned_coord_tuples pos.y delta.y ⟨0, 1⟩)).map
          (fun c => c.1)).Pairwise (· ≤ ·) := List.pairwise_map.2 hm
    have hsub := pointEmitP_fst_sublist (lookupD s.grid) pos delta
      (mergeBy (· + ·) (t_and_aligned_coord_tuples pos.x delta.x ⟨1, 0⟩)
        (t_and_aligned_coord_tuples pos.y delta.y ⟨0, 1⟩)) (pointStartCell pos)
    exact List.pairwise_map.1 (List.Pairwise.sublist hsub hms)
  · intro s pos delta hInv
    rw [(collide_moving_point_agree s pos delta).1, movingPointP_decomp]
    apply List.Pairwise.chain'
    rw [List.pairwise_append]
    refine ⟨by split_ifs <;> simp, (pointEmitP_pairwise_facts (lookupD s.grid) hInv
      pos delta _ (pointStartCell pos) (mergedTail_Pd pos delta)).1, ?_⟩
    intro a ha b hb
    by_cases hne : lookupD s.grid (pointStartCell pos) ≠ []
    · rw [if_pos hne] at ha
      simp only [List.mem_singleton] at ha
      obtain ⟨c2, hc2, hc2ne, hc2sum⟩ := (pointEmitP_pairwise_facts (lookupD s.grid)
        hInv pos delta _ (pointStartCell pos) (mergedTail_Pd pos delta)).2 b hb
      rw [ha]
      dsimp only
      rw [hc2]
      apply hitSetNe_of_cells (lookupD s.grid) hInv _ _ hne
      intro hcc
      rw [hcc] at hc2sum
      linarith
    · rw [if_neg hne] at ha
      exact absurd ha (by simp)
  · intro s size delta pos
    rw [(collide_moving_pawn_agree s size delta pos).1]
    unfold movingPawnP
    dsimp only
    rw [List.pairwise_append]
    have hm := mergedP_facts (lookupD s.grid) size delta pos
    refine ⟨?_, hm.2.1, ?_⟩
    · cases hcp : collidePawnP (lookupD s.grid) size pos with
      | none => simp
      | some l => cases l <;> simp
    · intro a ha b hb
      have ha0 : a.1 = 0 := by
        cases hcp : collidePawnP (lookupD s.grid) size pos with
        | none => rw [hcp] at ha; exact absurd ha (by simp)
        | some l =>
          cases l with
          | nil => rw [hcp] at ha; exact absurd ha (by simp)
          | cons hh tt =>
            rw [hcp] at ha
            simp only [List.mem_singleton] at ha
            rw [ha]
      rw [ha0]
      exact le_of_lt (hm.1 b hb)
  · intro s size delta pos
    rw [(movingPawnMerged_agree s size delta pos).1]
    exact List.Chain'.imp (fun a b h => sameHitSet_false_of _ _ h)
      ((mergedP_facts (lookupD s.grid) size delta pos).2.2)

/-- C7 witness: the amended claim's deduplication guarantee for
`collide_moving_point` at a concrete well-formed grid. -/
theorem C7_witness :
    ((GridCollider.collide_moving_point gridB ⟨14, 20⟩ ⟨4, 0⟩).2).Chain'
      (fun a b => ¬ HitSetEq a.2.2 b.2.2) := by
  apply C7_monotone_and_dedup.2.1 gridB ⟨14, 20⟩ ⟨4, 0⟩
  intro c t h
  have hg : gridB.grid = [(⟨15, 20⟩, [tileB1]), (⟨16, 20⟩, [tileB2]),
      (⟨17, 20⟩, [tileB3])] := by
    norm_num [gridB, tileB1, tileB2, tileB3, GridCollider.new, GridCollider.add,
      dd_get, dd_set, assocFind]
  rw [hg] at h
  simp only [lookupD, assocFind] at h
  split_ifs at h with h1 h2 h3 <;>
    simp only [Option.getD_some, Option.getD_none, List.mem_singleton] at h
  · rw [h, ← h1]; rfl
  · rw [h, ← h2]; rfl
  · rw [h, ← h3]; rfl
  · exact absurd h (by simp)

end Collision
